import Mathlib

/-
  Verification development for the portfolio tracker repository.

  Shallow embedding conventions:
  * JavaScript numbers are modelled as exact rationals (ℚ).  All the
    arithmetic the claims mention stays far from floating-point rounding
    boundaries, so the rational model and the double model agree on every
    value the claims name.
  * `Math.round` is modelled by `jsRound` (round half toward +infinity,
    which is JavaScript's `Math.round` semantics).
  * Strings are modelled as `List Char` (`Str`), so that the CSV
    export/import code can be embedded executably.
  * Fallible numeric parsing (`parseFloat` returning `NaN`) is modelled
    with `Option ℚ` (`none` models `NaN`).
-/

namespace Portfolio

abbrev Str := List Char

/-- Asset classes, from `src/unnamed/part_000` (`AssetType`). -/
inductive AssetType where
  | STOCK
  | BOND
deriving DecidableEq

/-- Raw holding record, from `src/unnamed/part_000` (`Holding`). -/
structure Holding where
  id : Str
  name : Str
  code : Str
  type : AssetType
  quantity : ℚ
  avgPrice : ℚ
  currentPrice : ℚ
deriving DecidableEq

/-- Derived holding, from `src/unnamed/part_000` (`CalculatedHolding`). -/
structure CalculatedHolding extends Holding where
  marketValueRaw : ℚ
  cost : ℚ
  presentValue : ℚ
  profit : ℚ
  roi : ℚ
deriving DecidableEq

/-- `src/utils/calculations.ts` line 4: `const FEE_RATE = 0.001425`. -/
def FEE_RATE : ℚ := 0.001425

/-- `src/utils/calculations.ts` line 5: `const FEE_DISCOUNT = 0.28`. -/
def FEE_DISCOUNT : ℚ := 0.28

/-- `src/utils/calculations.ts` line 6: `const TAX_RATE_STOCK = 0.001`. -/
def TAX_RATE_STOCK : ℚ := 0.001

/-- `src/utils/calculations.ts` line 7: `const TAX_RATE_BOND = 0`. -/
def TAX_RATE_BOND : ℚ := 0

/-- JavaScript `Math.round`: round half toward positive infinity. -/
def jsRound (x : ℚ) : ℤ := ⌊x + 1 / 2⌋

/-- `calculateCost` from `src/utils/calculations.ts` lines 13-17:
    `baseCost = quantity * avgPrice; fee = baseCost * FEE_RATE * FEE_DISCOUNT;
     return Math.round(baseCost + fee)`. -/
def calculateCost (holding : Holding) : ℚ :=
  let baseCost := holding.quantity * holding.avgPrice
  let fee := baseCost * FEE_RATE * FEE_DISCOUNT
  (jsRound (baseCost + fee) : ℚ)

/-- `calculatePresentValue` from `src/utils/calculations.ts` lines 24-34:
    `marketValue = quantity * currentPrice; fee = marketValue * FEE_RATE * FEE_DISCOUNT;
     tax = (type === STOCK) ? marketValue * TAX_RATE_STOCK : 0;
     return Math.round(marketValue - fee - tax)`. -/
def calculatePresentValue (holding : Holding) : ℚ :=
  let marketValue := holding.quantity * holding.currentPrice
  let fee := marketValue * FEE_RATE * FEE_DISCOUNT
  let tax := if holding.type = AssetType.STOCK then marketValue * TAX_RATE_STOCK else 0
  (jsRound (marketValue - fee - tax) : ℚ)

/-- `enrichHolding` from `src/utils/calculations.ts` lines 36-51. -/
def enrichHolding (holding : Holding) : CalculatedHolding :=
  let cost := calculateCost holding
  let presentValue := calculatePresentValue holding
  let profit := presentValue - cost
  let roi := if cost = 0 then 0 else profit / cost * 100
  { holding with
    marketValueRaw := holding.quantity * holding.currentPrice
    cost := cost
    presentValue := presentValue
    profit := profit
    roi := roi }

/-- Portfolio summary record, from `src/unnamed/part_000` (`PortfolioSummary`). -/
structure PortfolioSummary where
  totalAssets : ℚ
  stockValue : ℚ
  bondValue : ℚ
  cashValue : ℚ
  totalCost : ℚ
  totalProfit : ℚ
  totalRoi : ℚ
  stockRatio : ℚ
  bondRatio : ℚ
deriving DecidableEq

/-- The `summary` memo from `src/unnamed/part_001` lines 240-267.
    `reduce((sum, h) => sum + h.presentValue, 0)` is modelled by `List.foldl`. -/
def summarize (calculatedHoldings : List CalculatedHolding) (cash : ℚ) : PortfolioSummary :=
  let stockHoldings := calculatedHoldings.filter (fun h => h.type = AssetType.STOCK)
  let bondHoldings := calculatedHoldings.filter (fun h => h.type = AssetType.BOND)
  let stockValue := stockHoldings.foldl (fun sum h => sum + h.presentValue) 0
  let bondValue := bondHoldings.foldl (fun sum h => sum + h.presentValue) 0
  let totalCost := calculatedHoldings.foldl (fun sum h => sum + h.cost) 0
  let totalInvestedValue := stockValue + bondValue
  let totalAssets := totalInvestedValue + cash
  let totalProfit := totalInvestedValue - totalCost
  let totalRoi := if totalCost = 0 then 0 else totalProfit / totalCost * 100
  let stockRatio := if totalInvestedValue = 0 then 0 else stockValue / totalInvestedValue * 100
  let bondRatio := if totalInvestedValue = 0 then 0 else bondValue / totalInvestedValue * 100
  { totalAssets := totalAssets
    stockValue := stockValue
    bondValue := bondValue
    cashValue := cash
    totalCost := totalCost
    totalProfit := totalProfit
    totalRoi := totalRoi
    stockRatio := stockRatio
    bondRatio := bondRatio }

/-- Direction of the switch suggestion (`switchAction` strings in the source). -/
inductive SwitchAction where
  | buy_stock
  | buy_bond
deriving DecidableEq

/-- Asset class receiving the inflow (`inflowType` strings in the source). -/
inductive InflowType where
  | stock
  | bond
deriving DecidableEq

/-- Result of `rebalancingCalculations`: either the `{action:'none',...}` sentinel
    returned when `investedTotal === 0`, or the full suggestion object. -/
inductive RebalanceResult where
  | noop
  | suggest (investedTotal diff switchAmount : ℚ) (switchAction : SwitchAction)
      (inflowAmount : ℚ) (inflowType : InflowType)
deriving DecidableEq

/-- `rebalancingCalculations` from `src/components/Dashboard.tsx` lines 113-157,
    as a function of `summary.stockValue` and `summary.bondValue`. -/
def rebalancingCalculations (stockValue bondValue : ℚ) : RebalanceResult :=
  let investedTotal := stockValue + bondValue
  if investedTotal = 0 then RebalanceResult.noop
  else
    let targetStockValue := investedTotal * 0.6
    let diff := targetStockValue - stockValue
    let switchAmount := |diff|
    let switchAction := if 0 < diff then SwitchAction.buy_stock else SwitchAction.buy_bond
    if 0 < diff then
      RebalanceResult.suggest investedTotal diff switchAmount switchAction
        ((targetStockValue - stockValue) / 0.4) InflowType.stock
    else
      let targetBondValue := investedTotal * 0.4
      RebalanceResult.suggest investedTotal diff switchAmount switchAction
        ((targetBondValue - bondValue) / 0.6) InflowType.bond

/-- Spec-side formula (for refinement statements): `diff = 0.6·T − S`. -/
def specDiff (stockValue bondValue : ℚ) : ℚ :=
  0.6 * (stockValue + bondValue) - stockValue

/-- Spec-side formula: inflow amount per the spec's two closed forms. -/
def specInflow (stockValue bondValue : ℚ) : ℚ :=
  if 0 < specDiff stockValue bondValue then specDiff stockValue bondValue / 0.4
  else (0.4 * (stockValue + bondValue) - bondValue) / 0.6

/-- Spec-side formula: stock value after injecting the inflow into the
    underweight class alone. -/
def specNewStock (stockValue bondValue : ℚ) : ℚ :=
  if 0 < specDiff stockValue bondValue then stockValue + specInflow stockValue bondValue
  else stockValue

/-- Spec-side formula: switch action per the spec. -/
def specSwitchAction (stockValue bondValue : ℚ) : SwitchAction :=
  if 0 < specDiff stockValue bondValue then SwitchAction.buy_stock else SwitchAction.buy_bond

/-- Spec-side formula: inflow destination per the spec. -/
def specInflowType (stockValue bondValue : ℚ) : InflowType :=
  if 0 < specDiff stockValue bondValue then InflowType.stock else InflowType.bond

/-- The specific holding of the spec's worked scenario (quantity 22000,
    avgPrice 62.35, currentPrice 63.7, class STOCK). -/
def scenarioHolding : Holding :=
  { id := []
    name := []
    code := []
    type := AssetType.STOCK
    quantity := 22000
    avgPrice := 62.35
    currentPrice := 63.7 }

/-- Dividend record, from `src/unnamed/part_000` (`DividendRecord`).  The
    optional `exDividendDate` plays no role in any claim and is omitted; the
    optional `note` is modelled as a plain string (the export reads
    `r.note || ''`, so `none` and `''` are indistinguishable downstream). -/
structure DividendRecord where
  id : Str
  date : Str
  ticker : Str
  amount : ℚ
  note : Str
deriving DecidableEq

/-- Indexed map with access to the previous element: models the JavaScript
    pattern `arr.map((item, index) => ... arr[index - 1] ...)` where index 0
    sees `undefined`. -/
def withPrev {α β : Type} (f : Option α → α → β) : Option α → List α → List β
  | _, [] => []
  | pr, x :: xs => f pr x :: withPrev f (some x) xs

/-- One point of `yearlyTrendData` in `src/components/Dashboard.tsx`
    (year is a string there: `curr.date.split('-')[0]`). -/
structure TrendPoint where
  year : Str
  amount : ℚ
deriving DecidableEq

/-- One row of the Dashboard's `yearlyPerformance` memo. -/
structure DashRow where
  year : Str
  amount : ℚ
  growth : ℚ
  diff : ℚ
  hasPrev : Bool
deriving DecidableEq

/-- Row builder from `src/components/Dashboard.tsx` lines 898-908:
    `growth = prev && prev.amount > 0 ? ((item.amount - prev.amount) / prev.amount) * 100 : 0;
     diff = prev ? item.amount - prev.amount : 0; hasPrev = !!prev`. -/
def mkDashRow (prev : Option TrendPoint) (item : TrendPoint) : DashRow :=
  { year := item.year
    amount := item.amount
    growth := match prev with
      | some p => if 0 < p.amount then (item.amount - p.amount) / p.amount * 100 else 0
      | none => 0
    diff := match prev with
      | some p => item.amount - p.amount
      | none => 0
    hasPrev := prev.isSome }

/-- The Dashboard's `yearlyPerformance` memo (lines 898-908): indexed map with
    previous element, then `.reverse()`. -/
def dashYearlyPerformance (yearlyTrendData : List TrendPoint) : List DashRow :=
  (withPrev mkDashRow none yearlyTrendData).reverse

/-- The YoY cell rendered by the dividend tracker table,
    `src/components/Dashboard.tsx` lines 1329-1337:
    `row.hasPrev ? row.growth.toFixed(1)% : '-'`. -/
inductive GrowthCell where
  | dash
  | pct (value : ℚ)
deriving DecidableEq

/-- Rendering rule of the YoY column (the numeric formatting `toFixed(1)` is
    irrelevant to the claims; the cell keeps the exact value). -/
def displayGrowth (row : DashRow) : GrowthCell :=
  if row.hasPrev then GrowthCell.pct row.growth else GrowthCell.dash

/-- One row of the `[YEARLY_PERFORMANCE]` block written by `handleExportCSV`
    (`src/unnamed/part_001` lines 292-317).  `growth = none` models the `'-'`
    sentinel string, `growth = some g` the `g.toFixed(2) + '%'` cell; likewise
    for `diff`. -/
structure ExpYearRow where
  year : ℤ
  amount : ℚ
  growth : Option ℚ
  diff : Option ℚ
deriving DecidableEq

/-- Row builder from `handleExportCSV`: `growthStr = '-'`, `diffStr = '-'`;
    `if (index > 0) { diffStr = diff; if (prevAmount > 0) growthStr = ... }`. -/
def mkExpRow (prev : Option (ℤ × ℚ)) (p : ℤ × ℚ) : ExpYearRow :=
  { year := p.1
    amount := p.2
    growth := match prev with
      | some q => if 0 < q.2 then some ((p.2 - q.2) / q.2 * 100) else none
      | none => none
    diff := match prev with
      | some q => some (p.2 - q.2)
      | none => none }

/-- The yearly rows of the export, given the sorted `(year, amount)` pairs. -/
def mkExpRows (pairs : List (ℤ × ℚ)) : List ExpYearRow :=
  withPrev mkExpRow none pairs

/-- `new Date(r.date).getFullYear()` for ISO `yyyy-mm-dd` date strings: the
    leading run of digits. -/
def yearOf (date : Str) : ℤ :=
  ((date.takeWhile Char.isDigit).foldl (fun n c => 10 * n + (c.toNat - 48)) 0 : ℕ)

/-- `yearlyMap.set(year, (yearlyMap.get(year) || 0) + r.amount)`: association
    list preserving first-insertion order like a JS `Map`. -/
def addYear (m : List (ℤ × ℚ)) (y : ℤ) (amt : ℚ) : List (ℤ × ℚ) :=
  match m with
  | [] => [(y, amt)]
  | (y', a) :: rest => if y' = y then (y', a + amt) :: rest else (y', a) :: addYear rest y amt

/-- The `yearlyMap` built by `handleExportCSV` over the dividend records. -/
def yearlyMapOf (records : List DividendRecord) : List (ℤ × ℚ) :=
  records.foldl (fun m r => addYear m (yearOf r.date) r.amount) []

/-- `yearlyMap.get(year) || 0`. -/
def lookupYear (m : List (ℤ × ℚ)) (y : ℤ) : ℚ :=
  ((m.find? (fun p => p.1 == y)).map Prod.snd).getD 0

/-- The whole `[YEARLY_PERFORMANCE]` row computation of `handleExportCSV`:
    keys sorted ascending (`sort((a, b) => a - b)`), then the indexed map with
    the previous year's amount. -/
def exportYearRows (records : List DividendRecord) : List ExpYearRow :=
  let m := yearlyMapOf records
  let sortedYears := List.insertionSort (fun a b => a ≤ b) (m.map Prod.fst)
  mkExpRows (sortedYears.map (fun y => (y, lookupYear m y)))

-- ---------- CSV layer: characters, numbers, serialization ----------

/-- The whitespace characters relevant to this system that JavaScript
    `String.prototype.trim` strips (the export only ever puts `' '`, `'\t'`,
    CR/LF and the BOM `'\uFEFF'` near line boundaries). -/
def jsWhitespace (c : Char) : Bool :=
  c == ' ' || c == '\t' || c == '\n' || c == '\r' || c == '\x0b' || c == '\x0c' || c == '\uFEFF'

/-- `line.trim()`. -/
def jsTrim (s : Str) : Str :=
  ((s.dropWhile jsWhitespace).reverse.dropWhile jsWhitespace).reverse

/-- Split on `'\n'` (every piece before/after each LF). -/
def splitLF : Str → List Str
  | [] => [[]]
  | c :: rest =>
    if c = '\n' then [] :: splitLF rest
    else
      match splitLF rest with
      | [] => [[c]]
      | l :: ls => (c :: l) :: ls

/-- Drop one trailing CR (a piece that ended in `'\r'` before an LF was a CRLF
    break). -/
def stripCR (piece : Str) : Str :=
  if piece.getLast? = some '\r' then piece.dropLast else piece

/-- Apply `f` to every element except the last (the piece after the final LF
    is not followed by an LF, so its trailing CR is literal text). -/
def mapExceptLast (f : Str → Str) : List Str → List Str
  | [] => []
  | [x] => [x]
  | x :: y :: xs => f x :: mapExceptLast f (y :: xs)

/-- `text.split(/\r?\n/)`: a break at each LF, a CRLF pair is one break, a
    lone CR is literal text.  Pieces are cut at each LF and every piece that
    was followed by an LF loses one trailing CR. -/
def splitLines (text : Str) : List Str :=
  mapExceptLast stripCR (splitLF text)

/-- `s.split(',')`. -/
def splitOnComma : Str → List Str
  | [] => [[]]
  | c :: rest =>
    if c = ',' then [] :: splitOnComma rest
    else
      match splitOnComma rest with
      | [] => [[c]]
      | l :: ls => (c :: l) :: ls

/-- `s.startsWith(pat)`. -/
def leadsWith : Str → Str → Bool
  | [], _ => true
  | _ :: _, [] => false
  | p :: ps, c :: cs => p == c && leadsWith ps cs

/-- The decimal digit character for `d < 10`. -/
def digitCh (d : ℕ) : Char := Char.ofNat (48 + d)

/-- The value of a decimal digit character. -/
def charVal (c : Char) : ℕ := c.toNat - 48

/-- Numeric value of a big-endian string of decimal digits. -/
def digitsToNat (s : Str) : ℕ := s.foldl (fun n c => 10 * n + charVal c) 0

/-- Little-endian decimal digits of `n`, with explicit fuel (`fuel ≥ n`
    suffices). -/
def natToCharsGo : ℕ → ℕ → Str
  | 0, _ => []
  | fuel + 1, n => if n = 0 then [] else digitCh (n % 10) :: natToCharsGo fuel (n / 10)

/-- Big-endian decimal rendering of a natural number. -/
def natToChars (n : ℕ) : Str :=
  if n = 0 then ['0'] else (natToCharsGo n n).reverse

/-- `k`-digit zero-padded rendering of `m < 10^k` (the fractional part). -/
def fracChars (m k : ℕ) : Str :=
  List.replicate (k - (natToChars m).length) '0' ++ natToChars m

/-- Decimal rendering of the non-negative rational `n / d` (`d > 0`).  This
    models JavaScript number-to-string: every finite double is a finite
    decimal, and for a value that is exactly a short decimal the shortest
    round-trip output is that decimal (the least `k` below); the systems's
    values never reach the exponent-notation range.  The `/`-fallback for a
    non-decimal denominator corresponds to no representable double. -/
def decStr (n d : ℕ) : Str :=
  match (List.range (d + 1)).find? (fun k => 10 ^ k % d == 0) with
  | some k =>
    let m := n * 10 ^ k / d
    if k = 0 then natToChars m
    else natToChars (m / 10 ^ k) ++ '.' :: fracChars (m % 10 ^ k) k
  | none => natToChars n ++ '/' :: natToChars d

/-- JavaScript `${number}` string interpolation. -/
def qToStr (q : ℚ) : Str :=
  if q.num < 0 then '-' :: decStr q.num.natAbs q.den else decStr q.num.natAbs q.den

/-- `${integer}` (used for the exported years). -/
def intToStr (i : ℤ) : Str :=
  if i < 0 then '-' :: natToChars i.natAbs else natToChars i.natAbs

/-- `x.toFixed(2)`: two-decimal rendering of `round(x·100)/100`.  The integer
    `(200·num + den) / (2·den)` (floor division) is `⌊100·x + 1/2⌋`.  These
    cells are never consumed by the importer. -/
def toFixed2 (q : ℚ) : Str :=
  let n : ℤ := (200 * q.num + q.den) / (2 * q.den)
  (if n < 0 then ['-'] else []) ++ natToChars (n.natAbs / 100) ++ '.' :: fracChars (n.natAbs % 100) 2

/-- A decimal digit (JavaScript's code points U+0030..U+0039). -/
def isDigitCh (c : Char) : Bool := 48 ≤ c.toNat && c.toNat ≤ 57

/-- The unsigned part of `parseFloat`: integer digits, optional `.` and
    fraction digits; returns the numerator over `10^|fraction|`. -/
def parseMag (s1 : Str) : Option (ℕ × ℕ) :=
  let ip := s1.takeWhile isDigitCh
  let rest := s1.dropWhile isDigitCh
  let fp := if rest.head? = some '.' then rest.tail.takeWhile isDigitCh else []
  if ip = [] ∧ fp = [] then none
  else some (digitsToNat ip * 10 ^ fp.length + digitsToNat fp, 10 ^ fp.length)

/-- JavaScript `parseFloat`: longest numeric prefix (optional sign, integer
    digits, optional `.` and fraction digits); `none` models `NaN`.  Exponent
    notation never occurs in this system's CSV text and is not modelled.  The
    value `±(ip + fp/10^|fp|)` is assembled with `mkRat` over a common
    denominator. -/
def parseFloatJS (s : Str) : Option ℚ :=
  let s1 : Str := if s.head? = some '-' ∨ s.head? = some '+' then s.tail else s
  (parseMag s1).map
    (fun mp => mkRat (if s.head? = some '-' then -(mp.1 : ℤ) else (mp.1 : ℤ)) mp.2)

/-- `note.replace(/"/g, '""')` (the export's quote escaping). -/
def escQuotes : Str → Str
  | [] => []
  | c :: rest => if c = '"' then '"' :: '"' :: escQuotes rest else c :: escQuotes rest

/-- `note.replace(/""/g, '"')` (the import's unescaping; a global regex
    replace scans left to right without overlap). -/
def unescQuotes : Str → Str
  | [] => []
  | c :: rest =>
    if c = '"' then
      match rest with
      | [] => [c]
      | c2 :: rest2 =>
        if c2 = '"' then '"' :: unescQuotes rest2 else c :: unescQuotes (c2 :: rest2)
    else c :: unescQuotes rest

/-- The importer's scan for the index of the fourth comma
    (`src/unnamed/part_001` lines 396-407). -/
def idx4Go : Str → ℕ → ℕ → Option ℕ
  | [], _, _ => none
  | c :: rest, pos, cnt =>
    if c = ',' then
      if cnt + 1 = 4 then some pos else idx4Go rest (pos + 1) (cnt + 1)
    else idx4Go rest (pos + 1) cnt

/-- `splitIndex` of the dividends-row parser (`-1` becomes `none`). -/
def idx4 (s : Str) : Option ℕ := idx4Go s 0 0

-- ---------- CSV layer: import state machine ----------

/-- `${h.type}` prints the enum's string value. -/
def typeStr : AssetType → Str
  | AssetType.STOCK => ['S', 'T', 'O', 'C', 'K']
  | AssetType.BOND => ['B', 'O', 'N', 'D']

/-- A holding as actually constructed by `handleImportCSV`: the numeric fields
    went through `parseFloat` (so may be `NaN` = `none`), and
    `parts[3] as AssetType` is an unchecked cast that keeps whatever string
    was in the file. -/
structure ImpHolding where
  id : Str
  name : Str
  code : Str
  typeRaw : Str
  quantity : Option ℚ
  avgPrice : Option ℚ
  currentPrice : Option ℚ
deriving DecidableEq

/-- A dividend record as constructed by `handleImportCSV`. -/
structure ImpDividend where
  id : Str
  date : Str
  ticker : Str
  amount : Option ℚ
  note : Str
deriving DecidableEq

/-- The importer's current `section` string. -/
inductive Sect where
  | start
  | summary
  | cash
  | holdings
  | dividends
  | yearly
deriving DecidableEq

/-- The importer's accumulator (`section`, `tempCash`, `tempHoldings`,
    `tempDividends`). -/
structure ImpState where
  sect : Sect
  tempCash : Option ℚ
  tempHoldings : List ImpHolding
  tempDividends : List ImpDividend
deriving DecidableEq

def initState : ImpState :=
  { sect := Sect.start, tempCash := none, tempHoldings := [], tempDividends := [] }

def mSUMMARY : Str := "[SUMMARY]".data
def mCASH : Str := "[CASH]".data
def mHOLDINGS : Str := "[HOLDINGS]".data
def mDIVIDENDS : Str := "[DIVIDENDS]".data
def mYEARLY : Str := "[YEARLY_PERFORMANCE]".data
def hdrID : Str := "id,".data

def summaryHeader : Str :=
  "Total Assets,Stock Value,Bond Value,Cash Value,Total Cost,Total Profit,Total ROI,Stock Ratio,Bond Ratio".data
def holdingsHeader : Str :=
  "id,name,code,type,quantity,avgPrice,currentPrice,cost,presentValue,profit,roi".data
def yearlyHeader : Str := "Year,Total Amount,YoY Growth,YoY Diff".data
def dividendsHeader : Str := "id,date,ticker,amount,note".data

/-- `tempHoldings.push({id: parts[0], ..., currentPrice: parseFloat(parts[6])})`. -/
def mkImpHolding (parts : List Str) : ImpHolding :=
  { id := parts.getD 0 []
    name := parts.getD 1 []
    code := parts.getD 2 []
    typeRaw := parts.getD 3 []
    quantity := parseFloatJS (parts.getD 4 [])
    avgPrice := parseFloatJS (parts.getD 5 [])
    currentPrice := parseFloatJS (parts.getD 6 []) }

/-- One iteration of the `lines.forEach` body of `handleImportCSV`
    (`src/unnamed/part_001` lines 355-432), after the `line.trim()`. -/
def importStepCore (st : ImpState) (trimmed : Str) : ImpState :=
  if trimmed = [] then st
  else if trimmed = mSUMMARY then { st with sect := Sect.summary }
  else if trimmed = mCASH then { st with sect := Sect.cash }
  else if trimmed = mHOLDINGS then { st with sect := Sect.holdings }
  else if trimmed = mDIVIDENDS then { st with sect := Sect.dividends }
  else if trimmed = mYEARLY then { st with sect := Sect.yearly }
  else
    match st.sect with
    | Sect.summary => st
    | Sect.yearly => st
    | Sect.cash =>
      match parseFloatJS trimmed with
      | some v => { st with tempCash := some v }
      | none => st
    | Sect.holdings =>
      if leadsWith hdrID trimmed then st
      else
        let parts := splitOnComma trimmed
        if 7 ≤ parts.length then
          { st with tempHoldings := st.tempHoldings ++ [mkImpHolding parts] }
        else st
    | Sect.dividends =>
      if leadsWith hdrID trimmed then st
      else
        match idx4 trimmed with
        | none => st
        | some i =>
          let firstPart := trimmed.take i
          let parts := splitOnComma firstPart
          let noteRaw := trimmed.drop (i + 1)
          let note :=
            if leadsWith ['"'] noteRaw && (noteRaw.getLast? == some '"')
            then unescQuotes (noteRaw.drop 1).dropLast
            else noteRaw
          if parts.length = 4 then
            { st with tempDividends := st.tempDividends ++
                [{ id := parts.getD 0 []
                   date := parts.getD 1 []
                   ticker := parts.getD 2 []
                   amount := parseFloatJS (parts.getD 3 [])
                   note := note }] }
          else st
    | Sect.start => st

/-- One iteration of the `lines.forEach` body, on the raw line. -/
def importStep (st : ImpState) (line : Str) : ImpState :=
  importStepCore st (jsTrim line)

/-- The full line scan. -/
def parseCSV (text : Str) : ImpState :=
  (splitLines text).foldl importStep initState

/-- `!tempCash`: JavaScript truthiness of `number | null` — falsy for `null`
    and for `0` (`NaN` can never be stored, the CASH branch checks `isNaN`). -/
def jsFalsyCash : Option ℚ → Bool
  | none => true
  | some v => v == 0

/-- What a successful import commits. -/
structure ImportResult where
  holdings : List ImpHolding
  dividends : List ImpDividend
  cash : Option ℚ
deriving DecidableEq

/-- `handleImportCSV` up to the user-confirmation dialog: `none` models the
    thrown-and-caught format-invalid alert
    (`if (tempHoldings.length === 0 && !tempCash && tempDividends.length === 0) throw`). -/
def handleImportCSV (text : Str) : Option ImportResult :=
  let st := parseCSV text
  if st.tempHoldings = [] ∧ jsFalsyCash st.tempCash = true ∧ st.tempDividends = []
  then none
  else some { holdings := st.tempHoldings, dividends := st.tempDividends, cash := st.tempCash }

/-- The durable state touched by an import. -/
structure AppState where
  holdings : List ImpHolding
  dividendRecords : List ImpDividend
  cash : ℚ
deriving DecidableEq

/-- The commit step: on a parse failure the state is untouched; on success and
    user confirmation, `setHoldings`, `setDividendRecords` and (when a cash
    value was parsed) `setCash` all fire together. -/
def applyImport (s : AppState) (text : Str) (confirmed : Bool) : AppState :=
  match handleImportCSV text with
  | none => s
  | some r =>
    if confirmed then
      { holdings := r.holdings
        dividendRecords := r.dividends
        cash := match r.cash with
          | some v => v
          | none => s.cash }
    else s

-- ---------- CSV layer: export ----------

/-- One `[HOLDINGS]` row:
    `${id},${name},${code},${type},${quantity},${avgPrice},${currentPrice},${cost},${presentValue},${profit},${roi.toFixed(2)}%`. -/
def holdingLine (h : CalculatedHolding) : Str :=
  h.id ++ ',' :: (h.name ++ ',' :: (h.code ++ ',' :: (typeStr h.type ++ ',' ::
    (qToStr h.quantity ++ ',' :: (qToStr h.avgPrice ++ ',' :: (qToStr h.currentPrice ++ ',' ::
    (qToStr h.cost ++ ',' :: (qToStr h.presentValue ++ ',' :: (qToStr h.profit ++ ',' ::
    (toFixed2 h.roi ++ ['%']))))))))))

/-- One `[DIVIDENDS]` row: `${id},${date},${ticker},${amount},${safeNote}` with
    `safeNote = '"' + note.replace(/"/g,'""') + '"'`. -/
def dividendLine (r : DividendRecord) : Str :=
  r.id ++ ',' :: (r.date ++ ',' :: (r.ticker ++ ',' :: (qToStr r.amount ++ ',' ::
    ('"' :: (escQuotes r.note ++ ['"'])))))

/-- One `[YEARLY_PERFORMANCE]` row: `${year},${amount},${growthStr},${diffStr}`. -/
def yearLine (row : ExpYearRow) : Str :=
  intToStr row.year ++ ',' :: (qToStr row.amount ++ ',' ::
    ((match row.growth with
      | some g => toFixed2 g ++ ['%']
      | none => ['-']) ++ ',' ::
     (match row.diff with
      | some d => qToStr d
      | none => ['-'])))

/-- The `[SUMMARY]` data row (derived output; ignored by the importer). -/
def summaryValsLine (s : PortfolioSummary) : Str :=
  qToStr s.totalAssets ++ ',' :: (qToStr s.stockValue ++ ',' :: (qToStr s.bondValue ++ ',' ::
    (qToStr s.cashValue ++ ',' :: (qToStr s.totalCost ++ ',' :: (qToStr s.totalProfit ++ ',' ::
    (toFixed2 s.totalRoi ++ '%' :: ',' :: (toFixed2 s.stockRatio ++ '%' :: ',' ::
    (toFixed2 s.bondRatio ++ ['%']))))))))

/-- Lines joined with a trailing `'\n'` each (the `forEach` accumulations). -/
def joinLines (ls : List Str) : Str :=
  (ls.map (fun l => l ++ ['\n'])).flatten

/-- `handleExportCSV` (`src/unnamed/part_001` lines 270-327): the BOM, then the
    five sections in source order, matching the source's string concatenation
    character for character. -/
def exportCSV (calculatedHoldings : List CalculatedHolding) (cash : ℚ)
    (dividendRecords : List DividendRecord) : Str :=
  '\uFEFF' :: (mSUMMARY ++ '\n' :: (summaryHeader ++ '\n' ::
    (summaryValsLine (summarize calculatedHoldings cash) ++ '\n' :: ('\n' ::
    (mCASH ++ '\n' :: (qToStr cash ++ '\n' :: ('\n' ::
    (mHOLDINGS ++ '\n' :: (holdingsHeader ++ '\n' ::
    (joinLines (calculatedHoldings.map holdingLine) ++ '\n' ::
    (mYEARLY ++ '\n' :: (yearlyHeader ++ '\n' ::
    (joinLines ((exportYearRows dividendRecords).map yearLine) ++ '\n' ::
    (mDIVIDENDS ++ '\n' :: (dividendsHeader ++ '\n' ::
    joinLines (dividendRecords.map dividendLine))))))))))))))))

-- ---------- CSV layer: round-trip side conditions ----------

/-- The character alphabet of all serialized numbers (`qToStr`, `intToStr`,
    `toFixed2` plus the `%` suffix and `-` sentinel): digits, sign, dot,
    fallback slash, percent. -/
def serialChar (c : Char) : Bool :=
  isDigitCh c || c == '-' || c == '.' || c == '/' || c == '%'

/-- A text field that survives the line/comma structure: no delimiter, no line
    break. -/
def fieldOK (s : Str) : Bool :=
  s.all (fun c => !(c == ',' || c == '\n' || c == '\r'))

/-- The first character is not trimmable whitespace (only the line's leading
    field needs this). -/
def headOK (s : Str) : Bool :=
  match s.head? with
  | some c => !jsWhitespace c
  | none => true

/-- A note may contain commas and quotes, but no line break. -/
def noteOK (s : Str) : Bool :=
  s.all (fun c => !(c == '\n' || c == '\r'))

/-- `q` has a finite decimal expansion (its denominator divides a power of
    ten) — true of every value a double can hold. -/
def DecimalQ (q : ℚ) : Prop := 10 ^ q.den % q.den = 0

instance (q : ℚ) : Decidable (DecimalQ q) := by unfold DecimalQ; infer_instance

/-- Conditions under which a calculated holding's row survives the round trip
    unchanged. -/
def GoodHolding (h : CalculatedHolding) : Prop :=
  fieldOK h.id = true ∧ headOK h.id = true ∧ h.id ≠ ['i', 'd']
  ∧ fieldOK h.name = true ∧ fieldOK h.code = true
  ∧ DecimalQ h.quantity ∧ DecimalQ h.avgPrice ∧ DecimalQ h.currentPrice

instance (h : CalculatedHolding) : Decidable (GoodHolding h) := by
  unfold GoodHolding; infer_instance

/-- Conditions under which a dividend row survives the round trip unchanged. -/
def GoodDividend (r : DividendRecord) : Prop :=
  fieldOK r.id = true ∧ headOK r.id = true ∧ r.id ≠ ['i', 'd']
  ∧ fieldOK r.date = true ∧ fieldOK r.ticker = true
  ∧ DecimalQ r.amount ∧ noteOK r.note = true

instance (r : DividendRecord) : Decidable (GoodDividend r) := by
  unfold GoodDividend; infer_instance

/-- The raw-field projection of a calculated holding, as the importer would
    rebuild it. -/
def baseOf (h : CalculatedHolding) : ImpHolding :=
  { id := h.id
    name := h.name
    code := h.code
    typeRaw := typeStr h.type
    quantity := some h.quantity
    avgPrice := some h.avgPrice
    currentPrice := some h.currentPrice }

/-- The imported image of a dividend record. -/
def impOf (r : DividendRecord) : ImpDividend :=
  { id := r.id
    date := r.date
    ticker := r.ticker
    amount := some r.amount
    note := r.note }

/-- Concrete trend data for the C7 theorems: year 2020 totals 0, year 2021
    totals 100. -/
def trendW : List TrendPoint :=
  [{ year := ['2', '0', '2', '0'], amount := 0 }, { year := ['2', '0', '2', '1'], amount := 100 }]

/-- The same data as year/amount pairs for the export-side rows. -/
def yearPairsW : List (ℤ × ℚ) := [(2020, 0), (2021, 100)]

/-- A concrete zero-quantity holding (used by the C3 witness). -/
def zeroQtyHolding : Holding :=
  { id := []
    name := []
    code := []
    type := AssetType.STOCK
    quantity := 0
    avgPrice := 5
    currentPrice := 7 }

/-- A concrete calculated holding with positive present value (C5 witness). -/
def c5StockCH : CalculatedHolding :=
  { id := []
    name := []
    code := []
    type := AssetType.STOCK
    quantity := 0
    avgPrice := 0
    currentPrice := 0
    marketValueRaw := 0
    cost := 0
    presentValue := 50
    profit := 0
    roi := 0 }

/-- A dividend record whose ticker contains a comma (C8 counterexample). -/
def c8badDiv : DividendRecord :=
  { id := ['d']
    date := ['e']
    ticker := ['t', ',', 'u']
    amount := 1
    note := ['n'] }

/-- A concrete well-formed holding (C8 witness). -/
def c8wHolding : CalculatedHolding :=
  { id := ['h']
    name := ['n', 'm']
    code := ['c', 'd']
    type := AssetType.STOCK
    quantity := 2
    avgPrice := 3
    currentPrice := 4
    marketValueRaw := 8
    cost := 6
    presentValue := 8
    profit := 2
    roi := 0 }

/-- A concrete well-formed dividend whose note holds a comma and a quote
    (C8 witness). -/
def c8wDiv : DividendRecord :=
  { id := ['d', '1']
    date := "2024-01-02".data
    ticker := ['t', 'k']
    amount := 5
    note := ['a', ',', '"', 'b'] }

/-- The holding the C9 counterexample file actually imports: the quantity is
    NaN. -/
def c9expHolding : ImpHolding :=
  { id := "id1".data
    name := "nm".data
    code := "cd".data
    typeRaw := "STOCK".data
    quantity := none
    avgPrice := some 1
    currentPrice := some 2 }

/-- A `[HOLDINGS]` file whose quantity column is not a number
    (C9 counterexample). -/
def c9text : Str := "[HOLDINGS]\nid1,nm,cd,STOCK,abc,1,2".data

/-- A starting application state (C9 counterexample). -/
def c9state : AppState :=
  { holdings := []
    dividendRecords := []
    cash := 0 }

-- ===================== THEOREMS =====================

theorem jsRound_eq_of {x : ℚ} {n : ℤ} (h1 : (n : ℚ) ≤ x + 1 / 2) (h2 : x + 1 / 2 < n + 1) :
    jsRound x = n := by
  unfold jsRound
  rw [Int.floor_eq_iff]
  exact ⟨h1, by exact_mod_cast h2⟩

theorem foldl_add_eq_sum (f : CalculatedHolding → ℚ) (l : List CalculatedHolding) (a : ℚ) :
    l.foldl (fun s h => s + f h) a = a + (l.map f).sum := by
  induction l generalizing a with
  | nil => simp
  | cons x xs ih => simp only [List.foldl_cons, List.map_cons, List.sum_cons, ih]; ring

/-- Claim C1: for every holding, the derived cost is `round(q·avg·(1+f))`, the
    derived present value is `round(q·cur·(1−f−t))` with `f = 0.001425·0.28` and
    `t = 0.001` for STOCK, `0` for BOND, rounding applied once per formula;
    consequently both are integers. -/
theorem C1_cost_presentValue_formulas (h : Holding) :
    calculateCost h = (jsRound (h.quantity * h.avgPrice * (1 + 0.001425 * 0.28)) : ℚ)
    ∧ calculatePresentValue h = (jsRound (h.quantity * h.currentPrice *
        (1 - 0.001425 * 0.28 - (if h.type = AssetType.STOCK then 0.001 else 0))) : ℚ)
    ∧ ∃ c p : ℤ, calculateCost h = (c : ℚ) ∧ calculatePresentValue h = (p : ℚ) := by
  refine ⟨?_, ?_, ?_⟩
  · unfold calculateCost FEE_RATE FEE_DISCOUNT
    norm_num only
    congr 1
    ring
  · unfold calculatePresentValue FEE_RATE FEE_DISCOUNT TAX_RATE_STOCK
    by_cases ht : h.type = AssetType.STOCK <;> simp only [ht, if_true, if_false, if_pos, if_neg,
      not_false_iff] <;> norm_num only <;> congr 1 <;> ring
  · exact ⟨_, _, rfl, rfl⟩

theorem C2_cost_value : calculateCost scenarioHolding = 1372247 := by
  unfold calculateCost scenarioHolding FEE_RATE FEE_DISCOUNT
  norm_num only
  rw [show ((1372247 : ℚ) : ℚ) = ((1372247 : ℤ) : ℚ) from by norm_num]
  congr 1
  apply jsRound_eq_of <;> norm_num

theorem C2_presentValue_value : calculatePresentValue scenarioHolding = 1399439 := by
  unfold calculatePresentValue scenarioHolding FEE_RATE FEE_DISCOUNT TAX_RATE_STOCK
  norm_num only
  rw [show ((1399439 : ℚ) : ℚ) = ((1399439 : ℤ) : ℚ) from by norm_num]
  congr 1
  apply jsRound_eq_of <;> norm_num

/-- Claim C2 (counterexample): on the spec's worked scenario the code does not
    produce cost 1372248 nor present value 1399440. -/
theorem C2_counterexample :
    calculateCost scenarioHolding ≠ 1372248 ∧ calculatePresentValue scenarioHolding ≠ 1399440 := by
  constructor
  · rw [C2_cost_value]; norm_num
  · rw [C2_presentValue_value]; norm_num

/-- Claim C2 (amended): on the spec's worked scenario the derived cost is
    exactly 1372247 and the derived present value is exactly 1399439. -/
theorem C2_amended :
    calculateCost scenarioHolding = 1372247 ∧ calculatePresentValue scenarioHolding = 1399439 :=
  ⟨C2_cost_value, C2_presentValue_value⟩

/-- Claim C3: a holding with quantity 0 enriches to cost, presentValue, profit
    and roi all 0; and whenever the derived cost is 0 the roi is 0, whatever the
    profit is. -/
theorem C3_zero_quantity_and_zero_cost (h : Holding) :
    (h.quantity = 0 →
      (enrichHolding h).cost = 0 ∧ (enrichHolding h).presentValue = 0
      ∧ (enrichHolding h).profit = 0 ∧ (enrichHolding h).roi = 0)
    ∧ ((enrichHolding h).cost = 0 → (enrichHolding h).roi = 0) := by
  constructor
  · intro hq
    have hz : jsRound 0 = 0 := by apply jsRound_eq_of <;> norm_num
    have hcost : calculateCost h = 0 := by
      show (↑(jsRound (h.quantity * h.avgPrice
        + h.quantity * h.avgPrice * FEE_RATE * FEE_DISCOUNT)) : ℚ) = 0
      rw [show h.quantity * h.avgPrice + h.quantity * h.avgPrice * FEE_RATE * FEE_DISCOUNT
            = h.quantity * (h.avgPrice * (1 + FEE_RATE * FEE_DISCOUNT)) from by ring,
          hq, zero_mul, hz]
      norm_num
    have hpv : calculatePresentValue h = 0 := by
      show (↑(jsRound (h.quantity * h.currentPrice
        - h.quantity * h.currentPrice * FEE_RATE * FEE_DISCOUNT
        - (if h.type = AssetType.STOCK then h.quantity * h.currentPrice * TAX_RATE_STOCK
           else 0))) : ℚ) = 0
      by_cases ht : h.type = AssetType.STOCK
      · rw [if_pos ht,
          show h.quantity * h.currentPrice - h.quantity * h.currentPrice * FEE_RATE * FEE_DISCOUNT
            - h.quantity * h.currentPrice * TAX_RATE_STOCK
            = h.quantity * (h.currentPrice * (1 - FEE_RATE * FEE_DISCOUNT - TAX_RATE_STOCK))
            from by ring, hq, zero_mul, hz]
        norm_num
      · rw [if_neg ht,
          show h.quantity * h.currentPrice - h.quantity * h.currentPrice * FEE_RATE * FEE_DISCOUNT
            - 0 = h.quantity * (h.currentPrice * (1 - FEE_RATE * FEE_DISCOUNT))
            from by ring, hq, zero_mul, hz]
        norm_num
    refine ⟨hcost, hpv, ?_, ?_⟩ <;> simp [enrichHolding, hcost, hpv]
  · intro hc
    have hc' : calculateCost h = 0 := hc
    simp [enrichHolding, hc']

/-- Claim C3 witness: concrete zero-quantity holding. -/
theorem C3_witness :
    (enrichHolding zeroQtyHolding).cost = 0 ∧ (enrichHolding zeroQtyHolding).roi = 0 := by
  have h := C3_zero_quantity_and_zero_cost zeroQtyHolding
  have h1 := h.1 rfl
  exact ⟨h1.1, h.2 h1.1⟩

/-- Claim C4: the portfolio summary's fields satisfy the aggregation formulas,
    and the empty-portfolio scenario with cash 1,000,000 yields
    totalAssets 1,000,000 and zero ratios and roi. -/
theorem C4_summary_formulas (chs : List CalculatedHolding) (cash : ℚ) :
    (summarize chs cash).stockValue
        = ((chs.filter (fun h => h.type = AssetType.STOCK)).map (fun h => h.presentValue)).sum
    ∧ (summarize chs cash).bondValue
        = ((chs.filter (fun h => h.type = AssetType.BOND)).map (fun h => h.presentValue)).sum
    ∧ (summarize chs cash).totalCost = (chs.map (fun h => h.cost)).sum
    ∧ (summarize chs cash).totalAssets
        = (summarize chs cash).stockValue + (summarize chs cash).bondValue + cash
    ∧ (summarize chs cash).totalProfit
        = ((summarize chs cash).stockValue + (summarize chs cash).bondValue)
            - (summarize chs cash).totalCost
    ∧ (summarize chs cash).totalRoi
        = (if (summarize chs cash).totalCost = 0 then 0
           else (summarize chs cash).totalProfit / (summarize chs cash).totalCost * 100)
    ∧ (summarize [] 1000000).totalAssets = 1000000
    ∧ (summarize [] 1000000).stockRatio = 0
    ∧ (summarize [] 1000000).bondRatio = 0
    ∧ (summarize [] 1000000).totalRoi = 0 := by
  refine ⟨?_, ?_, ?_, ?_, ?_, ?_, ?_, ?_, ?_, ?_⟩
  · simp [summarize, foldl_add_eq_sum]
  · simp [summarize, foldl_add_eq_sum]
  · simp [summarize, foldl_add_eq_sum]
  · simp [summarize]
  · simp [summarize]
  · simp [summarize]
  · simp [summarize]
  · simp [summarize]
  · simp [summarize]
  · simp [summarize]

/-- Claim C5: whenever stockValue + bondValue > 0 the two ratios add to exactly
    100; whenever it is 0 both ratios are 0. -/
theorem C5_ratio_invariant (chs : List CalculatedHolding) (cash : ℚ) :
    (0 < (summarize chs cash).stockValue + (summarize chs cash).bondValue →
      (summarize chs cash).stockRatio + (summarize chs cash).bondRatio = 100)
    ∧ ((summarize chs cash).stockValue + (summarize chs cash).bondValue = 0 →
      (summarize chs cash).stockRatio = 0 ∧ (summarize chs cash).bondRatio = 0) := by
  constructor
  · intro hpos
    have hne : (summarize chs cash).stockValue + (summarize chs cash).bondValue ≠ 0 :=
      ne_of_gt hpos
    simp only [summarize] at hne ⊢
    rw [if_neg hne, if_neg hne]
    field_simp
    ring
  · intro hzero
    simp only [summarize] at hzero ⊢
    rw [if_pos hzero, if_pos hzero]
    exact ⟨rfl, rfl⟩

/-- Claim C5 witness: a concrete single-stock portfolio with positive invested
    value. -/
theorem C5_witness :
    (0 : ℚ) < (summarize [c5StockCH] 0).stockValue + (summarize [c5StockCH] 0).bondValue
    ∧ (summarize [c5StockCH] 0).stockRatio + (summarize [c5StockCH] 0).bondRatio = 100 := by
  have hpos : (0 : ℚ) <
      (summarize [c5StockCH] 0).stockValue + (summarize [c5StockCH] 0).bondValue := by
    simp [summarize, c5StockCH]
  exact ⟨hpos, (C5_ratio_invariant _ _).1 hpos⟩

/-- Claim C6: with non-negative stock and bond values and positive invested
    total, the rebalancing suggestion matches the spec's closed forms, both
    amounts are non-negative, and injecting the inflow into the underweight
    class restores the 60% stock fraction exactly; with zero invested total the
    no-op sentinel is returned. -/
theorem C6_rebalancing (S B : ℚ) (hS : 0 ≤ S) (hB : 0 ≤ B) :
    (S + B = 0 → rebalancingCalculations S B = RebalanceResult.noop)
    ∧ (0 < S + B →
        rebalancingCalculations S B
          = RebalanceResult.suggest (S + B) (specDiff S B) |specDiff S B|
              (specSwitchAction S B) (specInflow S B) (specInflowType S B)
        ∧ 0 ≤ |specDiff S B| ∧ 0 ≤ specInflow S B
        ∧ specNewStock S B / ((S + B) + specInflow S B) = 0.6) := by
  constructor
  · intro h0
    unfold rebalancingCalculations
    rw [if_pos h0]
  · intro hpos
    have hne : S + B ≠ 0 := ne_of_gt hpos
    have hdiff : (S + B) * 0.6 - S = specDiff S B := by unfold specDiff; ring
    by_cases hd : 0 < specDiff S B
    · have hrw : rebalancingCalculations S B
          = RebalanceResult.suggest (S + B) (specDiff S B) |specDiff S B|
              (specSwitchAction S B) (specInflow S B) (specInflowType S B) := by
        unfold rebalancingCalculations specSwitchAction specInflow specInflowType
        rw [if_neg hne]
        simp only [hdiff, if_pos hd]
      have hinfl : specInflow S B = specDiff S B / 0.4 := by
        unfold specInflow; rw [if_pos hd]
      have h04 : 0 ≤ specDiff S B / 0.4 := div_nonneg (le_of_lt hd) (by norm_num)
      refine ⟨hrw, abs_nonneg _, ?_, ?_⟩
      · rw [hinfl]; exact h04
      · unfold specNewStock
        rw [if_pos hd, hinfl]
        have hden : (0 : ℚ) < (S + B) + specDiff S B / 0.4 := by linarith
        rw [div_eq_iff (ne_of_gt hden)]
        unfold specDiff
        ring
    · have hrw : rebalancingCalculations S B
          = RebalanceResult.suggest (S + B) (specDiff S B) |specDiff S B|
              (specSwitchAction S B) (specInflow S B) (specInflowType S B) := by
        unfold rebalancingCalculations specSwitchAction specInflow specInflowType
        rw [if_neg hne]
        simp only [hdiff, if_neg hd]
        congr 1
        ring
      have hdle : specDiff S B ≤ 0 := le_of_not_lt hd
      have hinfl : specInflow S B = (0.4 * (S + B) - B) / 0.6 := by
        unfold specInflow; rw [if_neg hd]
      have hkey : 0.4 * (S + B) - B = -specDiff S B := by unfold specDiff; ring
      have hinfl_nonneg : 0 ≤ specInflow S B := by
        rw [hinfl, hkey]
        exact div_nonneg (by linarith) (by norm_num)
      refine ⟨hrw, abs_nonneg _, hinfl_nonneg, ?_⟩
      · unfold specNewStock
        rw [if_neg hd]
        have hden : (0 : ℚ) < (S + B) + specInflow S B := by linarith
        rw [div_eq_iff (ne_of_gt hden), hinfl, hkey]
        unfold specDiff
        ring

/-- Claim C6 witness: concrete portfolios exercising both the positive-total
    branch and the zero-total sentinel. -/
theorem C6_witness :
    (rebalancingCalculations 100 100
      = RebalanceResult.suggest (100 + 100) (specDiff 100 100) |specDiff 100 100|
          (specSwitchAction 100 100) (specInflow 100 100) (specInflowType 100 100)
    ∧ 0 ≤ |specDiff 100 100| ∧ 0 ≤ specInflow 100 100
    ∧ specNewStock 100 100 / ((100 + 100) + specInflow 100 100) = 0.6)
    ∧ rebalancingCalculations 0 0 = RebalanceResult.noop :=
  ⟨(C6_rebalancing 100 100 (by norm_num) (by norm_num)).2 (by norm_num),
   (C6_rebalancing 0 0 le_rfl le_rfl).1 (by norm_num)⟩

-- ---------- digit and character lemmas ----------

theorem charVal_digitCh {d : ℕ} (h : d < 10) : charVal (digitCh d) = d := by
  interval_cases d <;> decide

theorem isDigitCh_digitCh {d : ℕ} (h : d < 10) : isDigitCh (digitCh d) = true := by
  interval_cases d <;> decide

theorem toNat_bounds_of_isDigitCh {c : Char} (h : isDigitCh c = true) :
    48 ≤ c.toNat ∧ c.toNat ≤ 57 := by
  unfold isDigitCh at h
  simp only [Bool.and_eq_true, decide_eq_true_eq] at h
  exact h

theorem isDigitCh_ne_char {c x : Char} (h : isDigitCh c = true)
    (hx : x.toNat < 48 ∨ 57 < x.toNat) : c ≠ x := by
  obtain ⟨h1, h2⟩ := toNat_bounds_of_isDigitCh h
  intro e
  subst e
  omega

theorem jsWhitespace_eq_false_of_isDigitCh {c : Char} (h : isDigitCh c = true) :
    jsWhitespace c = false := by
  unfold jsWhitespace
  simp only [Bool.or_eq_false_iff, beq_eq_false_iff_ne]
  exact ⟨⟨⟨⟨⟨⟨isDigitCh_ne_char h (by decide), isDigitCh_ne_char h (by decide)⟩,
    isDigitCh_ne_char h (by decide)⟩, isDigitCh_ne_char h (by decide)⟩,
    isDigitCh_ne_char h (by decide)⟩, isDigitCh_ne_char h (by decide)⟩,
    isDigitCh_ne_char h (by decide)⟩

theorem digitsToNat_append_singleton (A : Str) (c : Char) :
    digitsToNat (A ++ [c]) = 10 * digitsToNat A + charVal c := by
  unfold digitsToNat
  rw [List.foldl_append]
  rfl

theorem natToCharsGo_val : ∀ fuel n, n ≤ fuel → digitsToNat ((natToCharsGo fuel n).reverse) = n := by
  intro fuel
  induction fuel with
  | zero => intro n hn; interval_cases n; decide
  | succ f ih =>
    intro n hn
    by_cases h0 : n = 0
    · subst h0; simp [natToCharsGo, digitsToNat]
    · show digitsToNat ((if n = 0 then [] else
        digitCh (n % 10) :: natToCharsGo f (n / 10)).reverse) = n
      rw [if_neg h0]
      rw [List.reverse_cons, digitsToNat_append_singleton,
        ih (n / 10) (by omega), charVal_digitCh (Nat.mod_lt n (by norm_num))]
      omega

theorem natToChars_val (n : ℕ) : digitsToNat (natToChars n) = n := by
  by_cases h : n = 0
  · subst h; decide
  · unfold natToChars
    rw [if_neg h]
    exact natToCharsGo_val n n le_rfl

theorem natToCharsGo_digits : ∀ fuel n c, c ∈ natToCharsGo fuel n → isDigitCh c = true := by
  intro fuel
  induction fuel with
  | zero => intro n c hc; cases hc
  | succ f ih =>
    intro n c hc
    by_cases h0 : n = 0
    · subst h0; cases hc
    · rw [show natToCharsGo (f + 1) n = if n = 0 then [] else
          digitCh (n % 10) :: natToCharsGo f (n / 10) from rfl, if_neg h0] at hc
      rcases List.mem_cons.mp hc with h | h
      · subst h; exact isDigitCh_digitCh (Nat.mod_lt n (by norm_num))
      · exact ih (n / 10) c h

theorem natToChars_digits {n : ℕ} {c : Char} (hc : c ∈ natToChars n) : isDigitCh c = true := by
  by_cases h : n = 0
  · subst h
    rcases List.mem_singleton.mp hc with rfl
    decide
  · unfold natToChars at hc
    rw [if_neg h, List.mem_reverse] at hc
    exact natToCharsGo_digits n n c hc

theorem natToChars_ne_nil (n : ℕ) : natToChars n ≠ [] := by
  by_cases h : n = 0
  · subst h; decide
  · unfold natToChars
    rw [if_neg h]
    cases fn : n with
    | zero => exact absurd fn h
    | succ m =>
      rw [show natToCharsGo (m + 1) (m + 1) = if (m + 1) = 0 then [] else
          digitCh ((m + 1) % 10) :: natToCharsGo m ((m + 1) / 10) from rfl,
        if_neg (Nat.succ_ne_zero m)]
      simp

theorem natToCharsGo_length : ∀ fuel n k, n ≤ fuel → n < 10 ^ k →
    (natToCharsGo fuel n).length ≤ k := by
  intro fuel
  induction fuel with
  | zero => intro n k _ _; simp [natToCharsGo]
  | succ f ih =>
    intro n k hn hk
    by_cases h0 : n = 0
    · subst h0
      rw [show natToCharsGo (f + 1) 0 = if (0 : ℕ) = 0 then [] else
          digitCh (0 % 10) :: natToCharsGo f (0 / 10) from rfl, if_pos rfl]
      simp
    · rw [show natToCharsGo (f + 1) n = if n = 0 then [] else
          digitCh (n % 10) :: natToCharsGo f (n / 10) from rfl, if_neg h0]
      cases k with
      | zero =>
        rw [pow_zero] at hk
        omega
      | succ k' =>
        have hdiv : n / 10 < 10 ^ k' := by
          rw [Nat.div_lt_iff_lt_mul (by norm_num : (0:ℕ) < 10)]
          calc n < 10 ^ (k' + 1) := hk
          _ = 10 ^ k' * 10 := by ring
        have := ih (n / 10) k' (by omega) hdiv
        simpa using Nat.succ_le_succ this

theorem natToChars_length_le {m k : ℕ} (hk : 1 ≤ k) (h : m < 10 ^ k) :
    (natToChars m).length ≤ k := by
  by_cases h0 : m = 0
  · subst h0; simpa [natToChars] using hk
  · unfold natToChars
    rw [if_neg h0, List.length_reverse]
    exact natToCharsGo_length m m k le_rfl h

theorem fracChars_length {m k : ℕ} (hk : 1 ≤ k) (h : m < 10 ^ k) :
    (fracChars m k).length = k := by
  unfold fracChars
  rw [List.length_append, List.length_replicate]
  have := natToChars_length_le hk h
  omega

theorem digitsToNat_cons_zero (l : Str) : digitsToNat ('0' :: l) = digitsToNat l := by
  show l.foldl (fun n c => 10 * n + charVal c) (10 * 0 + charVal '0') = _
  norm_num [charVal]
  rfl

theorem digitsToNat_replicate_zero (j : ℕ) (l : Str) :
    digitsToNat (List.replicate j '0' ++ l) = digitsToNat l := by
  induction j with
  | zero => simp
  | succ i ih =>
    rw [List.replicate_succ, List.cons_append, digitsToNat_cons_zero, ih]

theorem fracChars_val {m k : ℕ} : digitsToNat (fracChars m k) = m := by
  rw [fracChars, digitsToNat_replicate_zero, natToChars_val]

theorem fracChars_digits {m k : ℕ} {c : Char} (hc : c ∈ fracChars m k) :
    isDigitCh c = true := by
  unfold fracChars at hc
  rcases List.mem_append.mp hc with h | h
  · rcases List.eq_of_mem_replicate h with rfl
    decide
  · exact natToChars_digits h

-- ---------- takeWhile/dropWhile and parse-render lemmas ----------

theorem takeWhile_eq_self {p : Char → Bool} :
    ∀ {l : Str}, (∀ c ∈ l, p c = true) → l.takeWhile p = l ∧ l.dropWhile p = [] := by
  intro l
  induction l with
  | nil => intro _; exact ⟨rfl, rfl⟩
  | cons c cs ih =>
    intro h
    have hc : p c = true := h c (List.mem_cons_self c cs)
    have := ih (fun x hx => h x (List.mem_cons_of_mem c hx))
    rw [List.takeWhile_cons, List.dropWhile_cons, if_pos hc, if_pos hc]
    exact ⟨by rw [this.1], this.2⟩

theorem takeWhile_append_stop {p : Char → Bool} :
    ∀ (A : Str) {x : Char} (B : Str), (∀ c ∈ A, p c = true) → p x = false →
      (A ++ x :: B).takeWhile p = A ∧ (A ++ x :: B).dropWhile p = x :: B := by
  intro A
  induction A with
  | nil =>
    intro x B _ hx
    rw [List.nil_append, List.takeWhile_cons, List.dropWhile_cons, if_neg (by simp [hx]),
      if_neg (by simp [hx])]
    exact ⟨rfl, rfl⟩
  | cons c cs ih =>
    intro x B hA hx
    have hc : p c = true := hA c (List.mem_cons_self c cs)
    have := ih B (fun y hy => hA y (List.mem_cons_of_mem c hy)) hx
    rw [List.cons_append, List.takeWhile_cons, List.dropWhile_cons, if_pos hc, if_pos hc]
    exact ⟨by rw [this.1], this.2⟩

theorem natToChars_head (m : ℕ) : ∃ c cs, natToChars m = c :: cs ∧ isDigitCh c = true := by
  cases e : natToChars m with
  | nil => exact absurd e (natToChars_ne_nil m)
  | cons c cs =>
    refine ⟨c, cs, rfl, natToChars_digits (n := m) ?_⟩
    rw [e]
    exact List.mem_cons_self c cs

theorem decStr_eq_of_find {n d k : ℕ}
    (hk : (List.range (d + 1)).find? (fun j => 10 ^ j % d == 0) = some k) :
    decStr n d = if k = 0 then natToChars (n * 10 ^ k / d)
      else natToChars (n * 10 ^ k / d / 10 ^ k)
        ++ '.' :: fracChars (n * 10 ^ k / d % 10 ^ k) k := by
  unfold decStr
  rw [hk]

theorem decStr_eq_of_find_none {n d : ℕ}
    (hf : (List.range (d + 1)).find? (fun j => 10 ^ j % d == 0) = none) :
    decStr n d = natToChars n ++ '/' :: natToChars d := by
  unfold decStr
  rw [hf]

theorem digitsToNat_nil : digitsToNat [] = 0 := rfl

theorem parseMag_all_digits {A : Str} (hA : ∀ c ∈ A, isDigitCh c = true) (hne : A ≠ []) :
    parseMag A = some (digitsToNat A, 1) := by
  obtain ⟨htk1, htk2⟩ := takeWhile_eq_self (p := isDigitCh) hA
  unfold parseMag
  rw [htk1, htk2]
  simp [hne, digitsToNat_nil]

theorem parseMag_with_dot {A F : Str} (hA : ∀ c ∈ A, isDigitCh c = true) (hAne : A ≠ [])
    (hF : ∀ c ∈ F, isDigitCh c = true) :
    parseMag (A ++ '.' :: F)
      = some (digitsToNat A * 10 ^ F.length + digitsToNat F, 10 ^ F.length) := by
  have hdot : isDigitCh '.' = false := by decide
  obtain ⟨htk1, htk2⟩ := takeWhile_append_stop A F hA hdot
  obtain ⟨htkF, _⟩ := takeWhile_eq_self (p := isDigitCh) hF
  unfold parseMag
  rw [htk1, htk2]
  simp only [List.head?_cons, List.tail_cons, if_true]
  rw [htkF, if_neg (by simp [hAne])]

theorem parseMag_decStr {n d : ℕ} (hd : 0 < d) (hdec : 10 ^ d % d = 0) :
    ∃ m p : ℕ, parseMag (decStr n d) = some (m, p) ∧ 0 < p
      ∧ (m : ℚ) / (p : ℚ) = (n : ℚ) / (d : ℚ) := by
  have hfind : ∃ k, (List.range (d + 1)).find? (fun k => 10 ^ k % d == 0) = some k := by
    cases hf : (List.range (d + 1)).find? (fun k => 10 ^ k % d == 0) with
    | some k => exact ⟨k, rfl⟩
    | none =>
      have hnone := List.find?_eq_none.mp hf d (List.mem_range.mpr (by omega))
      simp only [beq_iff_eq] at hnone
      exact absurd hdec hnone
  obtain ⟨k, hk⟩ := hfind
  have hkprop : 10 ^ k % d = 0 := by
    have := List.find?_some hk
    simpa using this
  have hdvd : d ∣ 10 ^ k := Nat.dvd_of_mod_eq_zero hkprop
  have hexact : n * 10 ^ k / d * d = n * 10 ^ k :=
    Nat.div_mul_cancel (Dvd.dvd.mul_left hdvd n)
  by_cases hk0 : k = 0
  · subst hk0
    have hd1 : d = 1 := Nat.dvd_one.mp (by simpa using hdvd)
    subst hd1
    have hm : n * 10 ^ 0 / 1 = n := by simp
    rw [decStr_eq_of_find hk, if_pos rfl, hm]
    refine ⟨digitsToNat (natToChars n), 1,
      parseMag_all_digits (fun x hx => natToChars_digits hx) (natToChars_ne_nil n), by norm_num,
      ?_⟩
    rw [natToChars_val]
  · have hk1 : 1 ≤ k := by omega
    rw [decStr_eq_of_find hk, if_neg hk0]
    set m0 := n * 10 ^ k / d with hm0def
    have hmod : m0 % 10 ^ k < 10 ^ k := Nat.mod_lt _ (by positivity)
    have hFlen : (fracChars (m0 % 10 ^ k) k).length = k := fracChars_length hk1 hmod
    refine ⟨digitsToNat (natToChars (m0 / 10 ^ k)) * 10 ^ (fracChars (m0 % 10 ^ k) k).length
        + digitsToNat (fracChars (m0 % 10 ^ k) k),
      10 ^ (fracChars (m0 % 10 ^ k) k).length, ?_, by positivity, ?_⟩
    · exact parseMag_with_dot (fun x hx => natToChars_digits hx) (natToChars_ne_nil _)
        (fun x hx => fracChars_digits hx)
    · rw [natToChars_val, fracChars_val, hFlen]
      have hsum : m0 / 10 ^ k * 10 ^ k + m0 % 10 ^ k = m0 := by
        rw [mul_comm]
        exact Nat.div_add_mod m0 (10 ^ k)
      rw [hsum]
      have hq : (m0 : ℚ) * d = n * 10 ^ k := by exact_mod_cast congrArg (Nat.cast : ℕ → ℚ) hexact
      rw [div_eq_div_iff (by positivity) (by positivity)]
      push_cast at hq ⊢
      linarith [hq]

theorem parseFloatJS_neg_cons (X : Str) :
    parseFloatJS ('-' :: X) = (parseMag X).map (fun mp => mkRat (-(mp.1 : ℤ)) mp.2) := by
  unfold parseFloatJS
  simp only [List.head?_cons, List.tail_cons, true_or, if_true]

theorem parseFloatJS_no_sign {s : Str} (h1 : s.head? ≠ some '-') (h2 : s.head? ≠ some '+') :
    parseFloatJS s = (parseMag s).map (fun mp => mkRat (mp.1 : ℤ) mp.2) := by
  unfold parseFloatJS
  rw [if_neg (by rintro (h | h) <;> [exact h1 h; exact h2 h])]
  simp only [if_neg h1]

theorem decStr_head_digit (n d : ℕ) :
    ∃ c cs, decStr n d = c :: cs ∧ isDigitCh c = true := by
  cases hf : (List.range (d + 1)).find? (fun j => 10 ^ j % d == 0) with
  | none =>
    obtain ⟨c, cs, hc, hdig⟩ := natToChars_head n
    exact ⟨c, cs ++ '/' :: natToChars d,
      by rw [decStr_eq_of_find_none hf, hc]; rfl, hdig⟩
  | some k =>
    by_cases hk0 : k = 0
    · obtain ⟨c, cs, hc, hdig⟩ := natToChars_head (n * 10 ^ k / d)
      exact ⟨c, cs, by rw [decStr_eq_of_find hf, if_pos hk0, hc], hdig⟩
    · obtain ⟨c, cs, hc, hdig⟩ := natToChars_head (n * 10 ^ k / d / 10 ^ k)
      exact ⟨c, cs ++ '.' :: fracChars (n * 10 ^ k / d % 10 ^ k) k,
        by rw [decStr_eq_of_find hf, if_neg hk0, hc]; rfl, hdig⟩

theorem parseFloat_qToStr {q : ℚ} (h : DecimalQ q) : parseFloatJS (qToStr q) = some q := by
  have hd : 0 < q.den := q.pos
  obtain ⟨m, p, hpm, hp, hval⟩ := parseMag_decStr (n := q.num.natAbs) hd h
  have hqnd : (q.num : ℚ) = q * q.den := by
    exact_mod_cast (Rat.mul_den_eq_num q).symm
  have hden : ((q.den : ℚ)) ≠ 0 := by positivity
  have hp' : ((p : ℚ)) ≠ 0 := by positivity
  rw [div_eq_div_iff hp' hden] at hval
  by_cases hneg : q.num < 0
  · rw [show qToStr q = '-' :: decStr q.num.natAbs q.den from by unfold qToStr; rw [if_pos hneg]]
    rw [parseFloatJS_neg_cons, hpm]
    simp only [Option.map_some']
    congr 1
    rw [Rat.mkRat_eq_div]
    push_cast
    have hnum : ((q.num.natAbs : ℚ)) = -(q.num : ℚ) := by
      have h' : |q.num| = -q.num := abs_of_neg hneg
      rw [Int.cast_natAbs, h']
      push_cast
      ring
    rw [hnum, hqnd] at hval
    rw [div_eq_iff hp']
    apply mul_right_cancel₀ hden
    linear_combination -hval
  · rw [show qToStr q = decStr q.num.natAbs q.den from by unfold qToStr; rw [if_neg hneg]]
    obtain ⟨c, cs, hcons, hdig⟩ := decStr_head_digit q.num.natAbs q.den
    have hnm : (decStr q.num.natAbs q.den).head? ≠ some '-' := by
      rw [hcons]
      simp only [List.head?_cons, ne_eq, Option.some.injEq]
      exact isDigitCh_ne_char hdig (by decide)
    have hnp : (decStr q.num.natAbs q.den).head? ≠ some '+' := by
      rw [hcons]
      simp only [List.head?_cons, ne_eq, Option.some.injEq]
      exact isDigitCh_ne_char hdig (by decide)
    rw [parseFloatJS_no_sign hnm hnp, hpm]
    simp only [Option.map_some']
    congr 1
    rw [Rat.mkRat_eq_div]
    push_cast
    have hnum : ((q.num.natAbs : ℚ)) = (q.num : ℚ) := by
      have h' : |q.num| = q.num := abs_of_nonneg (le_of_not_lt hneg)
      rw [Int.cast_natAbs, h']
    rw [hnum, hqnd] at hval
    rw [div_eq_iff hp']
    apply mul_right_cancel₀ hden
    linear_combination hval

-- ---------- character classes of serialized output ----------

theorem serialChar_props {c : Char} (h : serialChar c = true) :
    jsWhitespace c = false ∧ c ≠ ',' ∧ c ≠ '\n' ∧ c ≠ '\r' ∧ c ≠ '[' := by
  unfold serialChar at h
  simp only [Bool.or_eq_true, beq_iff_eq] at h
  rcases h with ((((hd | rfl) | rfl) | rfl) | rfl)
  · exact ⟨jsWhitespace_eq_false_of_isDigitCh hd, isDigitCh_ne_char hd (by decide),
      isDigitCh_ne_char hd (by decide), isDigitCh_ne_char hd (by decide),
      isDigitCh_ne_char hd (by decide)⟩
  · exact ⟨by decide, by decide, by decide, by decide, by decide⟩
  · exact ⟨by decide, by decide, by decide, by decide, by decide⟩
  · exact ⟨by decide, by decide, by decide, by decide, by decide⟩
  · exact ⟨by decide, by decide, by decide, by decide, by decide⟩

theorem serialChar_of_digit {c : Char} (h : isDigitCh c = true) : serialChar c = true := by
  unfold serialChar
  rw [h]
  rfl

theorem natToChars_serial {n : ℕ} {c : Char} (hc : c ∈ natToChars n) : serialChar c = true :=
  serialChar_of_digit (natToChars_digits hc)

theorem fracChars_serial {m k : ℕ} {c : Char} (hc : c ∈ fracChars m k) : serialChar c = true :=
  serialChar_of_digit (fracChars_digits hc)

theorem decStr_serial {n d : ℕ} {c : Char} (hc : c ∈ decStr n d) : serialChar c = true := by
  cases hf : (List.range (d + 1)).find? (fun j => 10 ^ j % d == 0) with
  | none =>
    rw [decStr_eq_of_find_none hf] at hc
    rcases List.mem_append.mp hc with h | h
    · exact natToChars_serial h
    · rcases List.mem_cons.mp h with rfl | h
      · decide
      · exact natToChars_serial h
  | some k =>
    rw [decStr_eq_of_find hf] at hc
    by_cases hk0 : k = 0
    · rw [if_pos hk0] at hc
      exact natToChars_serial hc
    · rw [if_neg hk0] at hc
      rcases List.mem_append.mp hc with h | h
      · exact natToChars_serial h
      · rcases List.mem_cons.mp h with rfl | h
        · decide
        · exact fracChars_serial h

theorem qToStr_serial {q : ℚ} {c : Char} (hc : c ∈ qToStr q) : serialChar c = true := by
  unfold qToStr at hc
  by_cases hn : q.num < 0
  · rw [if_pos hn] at hc
    rcases List.mem_cons.mp hc with rfl | h
    · decide
    · exact decStr_serial h
  · rw [if_neg hn] at hc
    exact decStr_serial hc

theorem intToStr_serial {i : ℤ} {c : Char} (hc : c ∈ intToStr i) : serialChar c = true := by
  unfold intToStr at hc
  by_cases hn : i < 0
  · rw [if_pos hn] at hc
    rcases List.mem_cons.mp hc with rfl | h
    · decide
    · exact natToChars_serial h
  · rw [if_neg hn] at hc
    exact natToChars_serial hc

theorem toFixed2_serial {q : ℚ} {c : Char} (hc : c ∈ toFixed2 q) : serialChar c = true := by
  unfold toFixed2 at hc
  simp only [List.mem_append, List.mem_cons] at hc
  rcases hc with (h | h) | rfl | h
  · by_cases hn : ((200 * q.num + q.den) / (2 * q.den) : ℤ) < 0
    · rw [if_pos hn] at h
      rcases List.mem_singleton.mp h with rfl
      decide
    · rw [if_neg hn] at h
      cases h
  · exact natToChars_serial h
  · decide
  · exact fracChars_serial h

theorem qToStr_ne_nil (q : ℚ) : qToStr q ≠ [] := by
  unfold qToStr
  by_cases hn : q.num < 0
  · rw [if_pos hn]
    simp
  · rw [if_neg hn]
    obtain ⟨c, cs, hcons, _⟩ := decStr_head_digit q.num.natAbs q.den
    rw [hcons]
    simp

-- ---------- trim, markers and splitters ----------

theorem dropWhile_eq_self_of_head {p : Char → Bool} {l : Str}
    (h : ∀ c, l.head? = some c → p c = false) : l.dropWhile p = l := by
  cases l with
  | nil => rfl
  | cons c cs =>
    rw [List.dropWhile_cons, if_neg (by rw [h c rfl]; simp)]

theorem jsTrim_eq_self {l : Str} (h1 : ∀ c, l.head? = some c → jsWhitespace c = false)
    (h2 : ∀ c, l.getLast? = some c → jsWhitespace c = false) : jsTrim l = l := by
  unfold jsTrim
  rw [dropWhile_eq_self_of_head h1]
  rw [dropWhile_eq_self_of_head (by
    intro c hc
    rw [List.head?_reverse] at hc
    exact h2 c hc)]
  exact List.reverse_reverse l

theorem jsTrim_eq_self_of_all {l : Str} (h : ∀ c ∈ l, jsWhitespace c = false) : jsTrim l = l :=
  jsTrim_eq_self
    (fun c hc => h c (by cases l with
      | nil => cases hc
      | cons x xs => rw [List.head?_cons, Option.some.injEq] at hc; rw [← hc]; exact
          List.mem_cons_self x xs))
    (fun c hc => h c (by
      obtain ⟨hne, heq⟩ := List.mem_getLast?_eq_getLast hc
      rw [heq]
      exact List.getLast_mem hne))

theorem mem_dropWhile {p : Char → Bool} {c : Char} :
    ∀ {l : Str}, c ∈ l → p c = false → c ∈ l.dropWhile p := by
  intro l
  induction l with
  | nil => intro h _; cases h
  | cons x xs ih =>
    intro hmem hc
    rw [List.dropWhile_cons]
    by_cases hx : p x = true
    · rw [if_pos (by rw [hx])]
      rcases List.mem_cons.mp hmem with rfl | h
      · rw [hc] at hx; cases hx
      · exact ih h hc
    · rw [if_neg (by simpa using hx)]
      exact hmem

theorem mem_jsTrim {c : Char} {l : Str} (hmem : c ∈ l) (hc : jsWhitespace c = false) :
    c ∈ jsTrim l := by
  unfold jsTrim
  rw [List.mem_reverse]
  exact mem_dropWhile (List.mem_reverse.mpr (mem_dropWhile hmem hc)) hc

theorem jsTrim_ne_nil {c : Char} {l : Str} (hmem : c ∈ l) (hc : jsWhitespace c = false) :
    jsTrim l ≠ [] := by
  intro e
  have := mem_jsTrim hmem hc
  rw [e] at this
  cases this

theorem ne_markers_of_comma {t : Str} (h : ',' ∈ t) :
    t ≠ mSUMMARY ∧ t ≠ mCASH ∧ t ≠ mHOLDINGS ∧ t ≠ mDIVIDENDS ∧ t ≠ mYEARLY := by
  refine ⟨?_, ?_, ?_, ?_, ?_⟩ <;> (intro e; rw [e] at h; revert h; decide)

theorem ne_markers_of_no_bracket {t : Str} (h : '[' ∉ t) :
    t ≠ mSUMMARY ∧ t ≠ mCASH ∧ t ≠ mHOLDINGS ∧ t ≠ mDIVIDENDS ∧ t ≠ mYEARLY := by
  refine ⟨?_, ?_, ?_, ?_, ?_⟩ <;> (intro e; rw [e] at h; revert h; decide)

theorem splitOnComma_cons (c : Char) (rest : Str) :
    splitOnComma (c :: rest) = if c = ',' then [] :: splitOnComma rest
      else match splitOnComma rest with
        | [] => [[c]]
        | l :: ls => (c :: l) :: ls := rfl

theorem splitOnComma_append {a : Str} (r : Str) (ha : ',' ∉ a) :
    splitOnComma (a ++ ',' :: r) = a :: splitOnComma r := by
  induction a with
  | nil =>
    rw [List.nil_append, splitOnComma_cons, if_pos rfl]
  | cons c cs ih =>
    have hc : c ≠ ',' := fun e => ha (e ▸ List.mem_cons_self c cs)
    have hcs : ',' ∉ cs := fun hm => ha (List.mem_cons_of_mem c hm)
    rw [List.cons_append, splitOnComma_cons, if_neg hc, ih hcs]

theorem splitOnComma_single {a : Str} (ha : ',' ∉ a) : splitOnComma a = [a] := by
  induction a with
  | nil => rfl
  | cons c cs ih =>
    have hc : c ≠ ',' := fun e => ha (e ▸ List.mem_cons_self c cs)
    have hcs : ',' ∉ cs := fun hm => ha (List.mem_cons_of_mem c hm)
    rw [splitOnComma_cons, if_neg hc, ih hcs]

theorem splitLF_cons (c : Char) (rest : Str) :
    splitLF (c :: rest) = if c = '\n' then [] :: splitLF rest
      else match splitLF rest with
        | [] => [[c]]
        | l :: ls => (c :: l) :: ls := rfl

theorem splitLF_ne_nil : ∀ s : Str, splitLF s ≠ [] := by
  intro s
  induction s with
  | nil => simp [splitLF]
  | cons c rest ih =>
    rw [splitLF_cons]
    by_cases hc : c = '\n'
    · rw [if_pos hc]
      simp
    · rw [if_neg hc]
      cases hsp : splitLF rest with
      | nil => exact absurd hsp ih
      | cons l ls => simp

theorem splitLF_line {l : Str} (rest : Str) (hn : '\n' ∉ l) :
    splitLF (l ++ '\n' :: rest) = l :: splitLF rest := by
  induction l with
  | nil =>
    rw [List.nil_append, splitLF_cons, if_pos rfl]
  | cons c cs ih =>
    have hc : c ≠ '\n' := fun e => hn (e ▸ List.mem_cons_self c cs)
    have hcs : '\n' ∉ cs := fun hm => hn (List.mem_cons_of_mem c hm)
    rw [List.cons_append, splitLF_cons, if_neg hc, ih hcs]

theorem stripCR_eq_self {l : Str} (hr : '\r' ∉ l) : stripCR l = l := by
  unfold stripCR
  rw [if_neg]
  intro hc
  obtain ⟨hne, heq⟩ := List.mem_getLast?_eq_getLast hc
  exact hr (heq ▸ List.getLast_mem hne)

theorem splitLines_line {l : Str} (rest : Str) (hn : '\n' ∉ l) (hr : '\r' ∉ l) :
    splitLines (l ++ '\n' :: rest) = l :: splitLines rest := by
  unfold splitLines
  rw [splitLF_line rest hn]
  cases hsp : splitLF rest with
  | nil => exact absurd hsp (splitLF_ne_nil rest)
  | cons p ps =>
    show stripCR l :: mapExceptLast stripCR (p :: ps) = l :: mapExceptLast stripCR (p :: ps)
    rw [stripCR_eq_self hr]

theorem splitLines_join {rest : Str} :
    ∀ {ls : List Str}, (∀ l ∈ ls, '\n' ∉ l ∧ '\r' ∉ l) →
      splitLines (joinLines ls ++ rest) = ls ++ splitLines rest := by
  intro ls
  induction ls with
  | nil => intro _; rfl
  | cons l ls ih =>
    intro h
    have hl := h l (List.mem_cons_self l ls)
    have hls := fun x hx => h x (List.mem_cons_of_mem l hx)
    have hj : joinLines (l :: ls) = (l ++ ['\n']) ++ joinLines ls := by
      rw [joinLines, joinLines, List.map_cons, List.flatten_cons]
    rw [hj, List.append_assoc, List.append_assoc, List.singleton_append,
      splitLines_line (joinLines ls ++ rest) hl.1 hl.2, ih hls, List.cons_append]

-- ---------- field predicates, escaping, membership helpers ----------

theorem fieldOK_props {s : Str} (h : fieldOK s = true) :
    ∀ c ∈ s, c ≠ ',' ∧ c ≠ '\n' ∧ c ≠ '\r' := by
  intro c hc
  have := List.all_eq_true.mp h c hc
  simp only [Bool.not_eq_true', Bool.or_eq_false_iff, beq_eq_false_iff_ne] at this
  exact ⟨this.1.1, this.1.2, this.2⟩

theorem noteOK_props {s : Str} (h : noteOK s = true) : ∀ c ∈ s, c ≠ '\n' ∧ c ≠ '\r' := by
  intro c hc
  have := List.all_eq_true.mp h c hc
  simp only [Bool.not_eq_true', Bool.or_eq_false_iff, beq_eq_false_iff_ne] at this
  exact this

theorem mem_escQuotes {c : Char} : ∀ {s : Str}, c ∈ escQuotes s → c ∈ s ∨ c = '"' := by
  intro s
  induction s with
  | nil => intro h; cases h
  | cons x xs ih =>
    intro h
    rw [show escQuotes (x :: xs)
        = if x = '"' then '"' :: '"' :: escQuotes xs else x :: escQuotes xs from rfl] at h
    by_cases hx : x = '"'
    · rw [if_pos hx] at h
      rcases List.mem_cons.mp h with rfl | h
      · exact Or.inr rfl
      rcases List.mem_cons.mp h with rfl | h
      · exact Or.inr rfl
      rcases ih h with h' | h'
      · exact Or.inl (List.mem_cons_of_mem x h')
      · exact Or.inr h'
    · rw [if_neg hx] at h
      rcases List.mem_cons.mp h with rfl | h
      · exact Or.inl (List.mem_cons_self c xs)
      rcases ih h with h' | h'
      · exact Or.inl (List.mem_cons_of_mem x h')
      · exact Or.inr h'

theorem unesc_esc (s : Str) : unescQuotes (escQuotes s) = s := by
  induction s with
  | nil => rfl
  | cons x xs ih =>
    rw [show escQuotes (x :: xs)
        = if x = '"' then '"' :: '"' :: escQuotes xs else x :: escQuotes xs from rfl]
    by_cases hx : x = '"'
    · rw [if_pos hx]
      rw [show unescQuotes ('"' :: '"' :: escQuotes xs) = '"' :: unescQuotes (escQuotes xs) from by
        rw [show unescQuotes ('"' :: '"' :: escQuotes xs)
            = if ('"' : Char) = '"' then
                if ('"' : Char) = '"' then '"' :: unescQuotes (escQuotes xs)
                else '"' :: unescQuotes ('"' :: escQuotes xs)
              else '"' :: unescQuotes ('"' :: escQuotes xs) from rfl]
        rw [if_pos rfl, if_pos rfl]]
      rw [ih, hx]
    · rw [if_neg hx]
      cases he : escQuotes xs with
      | nil =>
        rw [show unescQuotes [x] = if x = '"' then [x] else x :: unescQuotes [] from by
          rw [show unescQuotes [x]
              = if x = '"' then [x] else x :: unescQuotes [] from rfl]]
        rw [if_neg hx]
        rw [show unescQuotes [] = [] from rfl]
        have : xs = [] := by
          cases xs with
          | nil => rfl
          | cons y ys =>
            rw [show escQuotes (y :: ys)
                = if y = '"' then '"' :: '"' :: escQuotes ys else y :: escQuotes ys from rfl] at he
            by_cases hy : y = '"'
            · rw [if_pos hy] at he; cases he
            · rw [if_neg hy] at he; cases he
        rw [this]
      | cons e es =>
        rw [show unescQuotes (x :: e :: es)
            = if x = '"' then
                if e = '"' then '"' :: unescQuotes es else x :: unescQuotes (e :: es)
              else x :: unescQuotes (e :: es) from rfl]
        rw [if_neg hx, ← he, ih]

theorem forall_mem_append₂ {P : Char → Prop} {a b : Str}
    (ha : ∀ c ∈ a, P c) (hb : ∀ c ∈ b, P c) : ∀ c ∈ a ++ b, P c := by
  intro c hc
  rcases List.mem_append.mp hc with h | h
  · exact ha c h
  · exact hb c h

theorem forall_mem_append_cons {P : Char → Prop} {a : Str} {c0 : Char} {b : Str}
    (ha : ∀ c ∈ a, P c) (hc : P c0) (hb : ∀ c ∈ b, P c) : ∀ c ∈ a ++ c0 :: b, P c := by
  intro c hcm
  rcases List.mem_append.mp hcm with h | h
  · exact ha c h
  rcases List.mem_cons.mp h with rfl | h
  · exact hc
  · exact hb c h

theorem forall_mem_singleton' {P : Char → Prop} {c0 : Char} (hc : P c0) :
    ∀ c ∈ [c0], P c := by
  intro c hc'
  rcases List.mem_singleton.mp hc' with rfl
  exact hc

theorem head_ok_append_cons {a : Str} {c0 : Char} {r : Str}
    (ha : headOK a = true) (hc0 : jsWhitespace c0 = false) :
    ∀ c, ((a ++ c0 :: r).head? = some c) → jsWhitespace c = false := by
  intro c hc
  cases a with
  | nil =>
    rw [List.nil_append, List.head?_cons, Option.some.injEq] at hc
    rw [← hc]
    exact hc0
  | cons x xs =>
    rw [List.cons_append, List.head?_cons, Option.some.injEq] at hc
    rw [← hc]
    unfold headOK at ha
    simpa using ha

theorem getLast?_append_cons (a : Str) (c0 : Char) (r : Str) :
    (a ++ c0 :: r).getLast? = (c0 :: r).getLast? :=
  List.getLast?_append_of_ne_nil a (List.cons_ne_nil c0 r)

theorem leadsWith_cons (p : Char) (ps : Str) (c : Char) (cs : Str) :
    leadsWith (p :: ps) (c :: cs) = (p == c && leadsWith ps cs) := rfl

theorem leadsWith_idcomma {a : Str} (r : Str) (ha : ',' ∉ a) (hne : a ≠ ['i', 'd']) :
    leadsWith hdrID (a ++ ',' :: r) = false := by
  match a with
  | [] =>
    rw [List.nil_append]
    rw [show hdrID = 'i' :: 'd' :: ',' :: [] from by decide, leadsWith_cons]
    rw [show (('i' : Char) == ',') = false from by decide]
    rfl
  | [c] =>
    rw [show ([c] : Str) ++ ',' :: r = c :: ',' :: r from rfl]
    rw [show hdrID = 'i' :: 'd' :: ',' :: [] from by decide, leadsWith_cons, leadsWith_cons]
    rw [show (('d' : Char) == ',') = false from by decide]
    simp
  | c1 :: c2 :: rest =>
    rw [show (c1 :: c2 :: rest : Str) ++ ',' :: r = c1 :: c2 :: (rest ++ ',' :: r) from rfl]
    rw [show hdrID = 'i' :: 'd' :: ',' :: [] from by decide, leadsWith_cons, leadsWith_cons]
    cases rest with
    | nil =>
      rw [List.nil_append, leadsWith_cons]
      by_cases h1 : c1 = 'i'
      · by_cases h2 : c2 = 'd'
        · exact absurd (by rw [h1, h2]) hne
        · rw [show (('d' : Char) == c2) = false from by simp [Ne.symm h2]]
          simp
      · rw [show (('i' : Char) == c1) = false from by simp [Ne.symm h1]]
        simp
    | cons c3 rest' =>
      rw [show (c3 :: rest' : Str) ++ ',' :: r = c3 :: (rest' ++ ',' :: r) from rfl,
        leadsWith_cons]
      have h3 : c3 ≠ ',' := fun e => ha (by
        rw [e] at *
        exact List.mem_cons_of_mem c1 (List.mem_cons_of_mem c2 (List.mem_cons_self ',' rest')))
      rw [show ((',' : Char) == c3) = false from by simp [Ne.symm h3]]
      simp

-- ---------- line-level safety lemmas ----------

theorem serial_noLB {c : Char} (h : serialChar c = true) : c ≠ '\n' ∧ c ≠ '\r' :=
  ⟨(serialChar_props h).2.2.1, (serialChar_props h).2.2.2.1⟩

theorem serial_not_comma {c : Char} (h : serialChar c = true) : c ≠ ',' :=
  (serialChar_props h).2.1

theorem typeStr_chars (t : AssetType) :
    ∀ c ∈ typeStr t, c ≠ ',' ∧ c ≠ '\n' ∧ c ≠ '\r' := by
  cases t <;> decide

theorem not_mem_of_forall_ne {x : Char} {l : Str} (h : ∀ c ∈ l, c ≠ x) : x ∉ l :=
  fun hm => h x hm rfl

theorem getLast?_cons_ne_nil {c : Char} {l : Str} (hl : l ≠ []) :
    (c :: l).getLast? = l.getLast? := by
  cases l with
  | nil => exact absurd rfl hl
  | cons x xs => exact List.getLast?_cons_cons

theorem getLast?_chain {a : Str} {c0 : Char} {r : Str} (hr : r ≠ []) :
    (a ++ c0 :: r).getLast? = r.getLast? := by
  rw [getLast?_append_cons]
  exact getLast?_cons_ne_nil hr

theorem holdingLine_forall {h : CalculatedHolding} {P : Char → Prop}
    (hid : ∀ c ∈ h.id, P c) (hname : ∀ c ∈ h.name, P c) (hcode : ∀ c ∈ h.code, P c)
    (hty : ∀ c ∈ typeStr h.type, P c) (hser : ∀ c, serialChar c = true → P c)
    (hcomma : P ',') :
    ∀ c ∈ holdingLine h, P c := by
  have hq : ∀ (v : ℚ) c, c ∈ qToStr v → P c := fun v c hc => hser c (qToStr_serial hc)
  have hf : ∀ c ∈ toFixed2 h.roi, P c := fun c hc => hser c (toFixed2_serial hc)
  have hp : P '%' := hser '%' (by decide)
  unfold holdingLine
  exact forall_mem_append_cons hid hcomma (forall_mem_append_cons hname hcomma
    (forall_mem_append_cons hcode hcomma (forall_mem_append_cons hty hcomma
    (forall_mem_append_cons (hq _) hcomma (forall_mem_append_cons (hq _) hcomma
    (forall_mem_append_cons (hq _) hcomma (forall_mem_append_cons (hq _) hcomma
    (forall_mem_append_cons (hq _) hcomma (forall_mem_append_cons (hq _) hcomma
    (forall_mem_append₂ hf (forall_mem_singleton' hp)))))))))))

theorem dividendLine_forall {r : DividendRecord} {P : Char → Prop}
    (hid : ∀ c ∈ r.id, P c) (hdate : ∀ c ∈ r.date, P c) (hticker : ∀ c ∈ r.ticker, P c)
    (hser : ∀ c, serialChar c = true → P c) (hnote : ∀ c ∈ r.note, P c)
    (hcomma : P ',') (hquote : P '"') :
    ∀ c ∈ dividendLine r, P c := by
  have hq : ∀ c, c ∈ qToStr r.amount → P c := fun c hc => hser c (qToStr_serial hc)
  have hesc : ∀ c ∈ escQuotes r.note, P c := by
    intro c hc
    rcases mem_escQuotes hc with h | rfl
    · exact hnote c h
    · exact hquote
  unfold dividendLine
  refine forall_mem_append_cons hid hcomma (forall_mem_append_cons hdate hcomma
    (forall_mem_append_cons hticker hcomma (forall_mem_append_cons hq hcomma ?_)))
  intro c hc
  rcases List.mem_cons.mp hc with rfl | hc
  · exact hquote
  exact forall_mem_append₂ hesc (forall_mem_singleton' hquote) c hc

theorem yearLine_forall {row : ExpYearRow} {P : Char → Prop}
    (hser : ∀ c, serialChar c = true → P c) (hcomma : P ',') :
    ∀ c ∈ yearLine row, P c := by
  have hi : ∀ c ∈ intToStr row.year, P c := fun c hc => hser c (intToStr_serial hc)
  have hq : ∀ (v : ℚ) c, c ∈ qToStr v → P c := fun v c hc => hser c (qToStr_serial hc)
  have hdash : P '-' := hser '-' (by decide)
  have hp : P '%' := hser '%' (by decide)
  have hgrowth : ∀ c ∈ (match row.growth with
      | some g => toFixed2 g ++ ['%']
      | none => ['-']), P c := by
    cases row.growth with
    | none => exact forall_mem_singleton' hdash
    | some g =>
      exact forall_mem_append₂ (fun c hc => hser c (toFixed2_serial hc))
        (forall_mem_singleton' hp)
  have hdiff : ∀ c ∈ (match row.diff with
      | some d => qToStr d
      | none => ['-']), P c := by
    cases row.diff with
    | none => exact forall_mem_singleton' hdash
    | some d => exact hq d
  unfold yearLine
  exact forall_mem_append_cons hi hcomma (forall_mem_append_cons (hq _) hcomma
    (forall_mem_append_cons hgrowth hcomma hdiff))

theorem summaryValsLine_forall {s : PortfolioSummary} {P : Char → Prop}
    (hser : ∀ c, serialChar c = true → P c) (hcomma : P ',') :
    ∀ c ∈ summaryValsLine s, P c := by
  have hq : ∀ (v : ℚ) c, c ∈ qToStr v → P c := fun v c hc => hser c (qToStr_serial hc)
  have hf : ∀ (v : ℚ) c, c ∈ toFixed2 v → P c := fun v c hc => hser c (toFixed2_serial hc)
  have hp : P '%' := hser '%' (by decide)
  unfold summaryValsLine
  refine forall_mem_append_cons (hq _) hcomma (forall_mem_append_cons (hq _) hcomma
    (forall_mem_append_cons (hq _) hcomma (forall_mem_append_cons (hq _) hcomma
    (forall_mem_append_cons (hq _) hcomma (forall_mem_append_cons (hq _) hcomma ?_)))))
  refine forall_mem_append₂ (hf _) ?_
  intro c hc
  rcases List.mem_cons.mp hc with rfl | hc
  · exact hp
  rcases List.mem_cons.mp hc with rfl | hc
  · exact hcomma
  refine forall_mem_append₂ (hf _) ?_ c hc
  intro c' hc'
  rcases List.mem_cons.mp hc' with rfl | hc'
  · exact hp
  rcases List.mem_cons.mp hc' with rfl | hc'
  · exact hcomma
  exact forall_mem_append₂ (hf _) (forall_mem_singleton' hp) c' hc'

theorem noLB_pred_serial : ∀ c, serialChar c = true → (c ≠ '\n' ∧ c ≠ '\r') :=
  fun _ hc => serial_noLB hc

theorem holdingLine_noLB {h : CalculatedHolding} (hg : GoodHolding h) :
    '\n' ∉ holdingLine h ∧ '\r' ∉ holdingLine h := by
  obtain ⟨hid, _, _, hname, hcode, _, _, _⟩ := hg
  have hforall : ∀ c ∈ holdingLine h, c ≠ '\n' ∧ c ≠ '\r' :=
    holdingLine_forall
      (fun c hc => ⟨(fieldOK_props hid c hc).2.1, (fieldOK_props hid c hc).2.2⟩)
      (fun c hc => ⟨(fieldOK_props hname c hc).2.1, (fieldOK_props hname c hc).2.2⟩)
      (fun c hc => ⟨(fieldOK_props hcode c hc).2.1, (fieldOK_props hcode c hc).2.2⟩)
      (fun c hc => ⟨(typeStr_chars h.type c hc).2.1, (typeStr_chars h.type c hc).2.2⟩)
      noLB_pred_serial (by decide)
  exact ⟨not_mem_of_forall_ne (fun c hc => (hforall c hc).1),
    not_mem_of_forall_ne (fun c hc => (hforall c hc).2)⟩

theorem dividendLine_noLB {r : DividendRecord} (hg : GoodDividend r) :
    '\n' ∉ dividendLine r ∧ '\r' ∉ dividendLine r := by
  obtain ⟨hid, _, _, hdate, hticker, _, hnote⟩ := hg
  have hforall : ∀ c ∈ dividendLine r, c ≠ '\n' ∧ c ≠ '\r' :=
    dividendLine_forall
      (fun c hc => ⟨(fieldOK_props hid c hc).2.1, (fieldOK_props hid c hc).2.2⟩)
      (fun c hc => ⟨(fieldOK_props hdate c hc).2.1, (fieldOK_props hdate c hc).2.2⟩)
      (fun c hc => ⟨(fieldOK_props hticker c hc).2.1, (fieldOK_props hticker c hc).2.2⟩)
      noLB_pred_serial
      (fun c hc => noteOK_props hnote c hc)
      (by decide) (by decide)
  exact ⟨not_mem_of_forall_ne (fun c hc => (hforall c hc).1),
    not_mem_of_forall_ne (fun c hc => (hforall c hc).2)⟩

theorem yearLine_noLB (row : ExpYearRow) : '\n' ∉ yearLine row ∧ '\r' ∉ yearLine row := by
  have hforall : ∀ c ∈ yearLine row, c ≠ '\n' ∧ c ≠ '\r' :=
    yearLine_forall noLB_pred_serial (by decide)
  exact ⟨not_mem_of_forall_ne (fun c hc => (hforall c hc).1),
    not_mem_of_forall_ne (fun c hc => (hforall c hc).2)⟩

theorem summaryValsLine_noLB (s : PortfolioSummary) :
    '\n' ∉ summaryValsLine s ∧ '\r' ∉ summaryValsLine s := by
  have hforall : ∀ c ∈ summaryValsLine s, c ≠ '\n' ∧ c ≠ '\r' :=
    summaryValsLine_forall noLB_pred_serial (by decide)
  exact ⟨not_mem_of_forall_ne (fun c hc => (hforall c hc).1),
    not_mem_of_forall_ne (fun c hc => (hforall c hc).2)⟩

theorem comma_mem_append_cons (a : Str) (r : Str) : ',' ∈ a ++ ',' :: r :=
  List.mem_append.mpr (Or.inr (List.mem_cons_self ',' r))

theorem comma_mem_holdingLine (h : CalculatedHolding) : ',' ∈ holdingLine h :=
  comma_mem_append_cons h.id _

theorem comma_mem_yearLine (row : ExpYearRow) : ',' ∈ yearLine row :=
  comma_mem_append_cons (intToStr row.year) _

theorem comma_mem_summaryValsLine (s : PortfolioSummary) : ',' ∈ summaryValsLine s :=
  comma_mem_append_cons (qToStr s.totalAssets) _

-- ---------- import step lemmas ----------

theorem holdingLine_last {h : CalculatedHolding} : (holdingLine h).getLast? = some '%' := by
  unfold holdingLine
  rw [getLast?_chain (by simp), getLast?_chain (by simp), getLast?_chain (by simp),
    getLast?_chain (by simp), getLast?_chain (by simp), getLast?_chain (by simp),
    getLast?_chain (by simp), getLast?_chain (by simp), getLast?_chain (by simp),
    getLast?_chain (by simp), List.getLast?_append_of_ne_nil (toFixed2 h.roi) (by simp)]
  rfl

theorem holdingLine_trim {h : CalculatedHolding} (hg : GoodHolding h) :
    jsTrim (holdingLine h) = holdingLine h := by
  refine jsTrim_eq_self ?_ ?_
  · unfold holdingLine
    exact head_ok_append_cons hg.2.1 (by decide)
  · intro c hc
    rw [holdingLine_last, Option.some.injEq] at hc
    rw [← hc]
    decide

theorem dividendLine_last {r : DividendRecord} : (dividendLine r).getLast? = some '"' := by
  unfold dividendLine
  rw [getLast?_chain (by simp), getLast?_chain (by simp), getLast?_chain (by simp),
    getLast?_chain (by simp), getLast?_cons_ne_nil (by simp),
    List.getLast?_append_of_ne_nil (escQuotes r.note) (by simp)]
  rfl

theorem dividendLine_trim {r : DividendRecord} (hg : GoodDividend r) :
    jsTrim (dividendLine r) = dividendLine r := by
  refine jsTrim_eq_self ?_ ?_
  · unfold dividendLine
    exact head_ok_append_cons hg.2.1 (by decide)
  · intro c hc
    rw [dividendLine_last, Option.some.injEq] at hc
    rw [← hc]
    decide

theorem stepCore_cash {t : Str} (c : Option ℚ) (H : List ImpHolding) (D : List ImpDividend)
    (hne : t ≠ []) (hm : '[' ∉ t) {v : ℚ} (hp : parseFloatJS t = some v) :
    importStepCore ⟨Sect.cash, c, H, D⟩ t = ⟨Sect.cash, some v, H, D⟩ := by
  obtain ⟨m1, m2, m3, m4, m5⟩ := ne_markers_of_no_bracket hm
  simp only [importStepCore]
  rw [if_neg hne, if_neg m1, if_neg m2, if_neg m3, if_neg m4, if_neg m5]
  simp only [hp]

theorem stepCore_mSUMMARY (st : ImpState) :
    importStepCore st mSUMMARY = { st with sect := Sect.summary } := by
  have h0 : mSUMMARY ≠ ([] : Str) := by decide
  simp only [importStepCore]
  rw [if_neg h0]
  simp

theorem stepCore_mCASH (st : ImpState) :
    importStepCore st mCASH = { st with sect := Sect.cash } := by
  have h0 : mCASH ≠ ([] : Str) := by decide
  have h1 : mCASH ≠ mSUMMARY := by decide
  simp only [importStepCore]
  rw [if_neg h0, if_neg h1]
  simp

theorem stepCore_mHOLDINGS (st : ImpState) :
    importStepCore st mHOLDINGS = { st with sect := Sect.holdings } := by
  have h0 : mHOLDINGS ≠ ([] : Str) := by decide
  have h1 : mHOLDINGS ≠ mSUMMARY := by decide
  have h2 : mHOLDINGS ≠ mCASH := by decide
  simp only [importStepCore]
  rw [if_neg h0, if_neg h1, if_neg h2]
  simp

theorem stepCore_mDIVIDENDS (st : ImpState) :
    importStepCore st mDIVIDENDS = { st with sect := Sect.dividends } := by
  have h0 : mDIVIDENDS ≠ ([] : Str) := by decide
  have h1 : mDIVIDENDS ≠ mSUMMARY := by decide
  have h2 : mDIVIDENDS ≠ mCASH := by decide
  have h3 : mDIVIDENDS ≠ mHOLDINGS := by decide
  simp only [importStepCore]
  rw [if_neg h0, if_neg h1, if_neg h2, if_neg h3]
  simp

theorem stepCore_mYEARLY (st : ImpState) :
    importStepCore st mYEARLY = { st with sect := Sect.yearly } := by
  have h0 : mYEARLY ≠ ([] : Str) := by decide
  have h1 : mYEARLY ≠ mSUMMARY := by decide
  have h2 : mYEARLY ≠ mCASH := by decide
  have h3 : mYEARLY ≠ mHOLDINGS := by decide
  have h4 : mYEARLY ≠ mDIVIDENDS := by decide
  simp only [importStepCore]
  rw [if_neg h0, if_neg h1, if_neg h2, if_neg h3, if_neg h4]
  simp

theorem stepCore_ignored_summary (c : Option ℚ) (H : List ImpHolding) (D : List ImpDividend)
    {t : Str} (hcm : ',' ∈ t) :
    importStepCore ⟨Sect.summary, c, H, D⟩ t = ⟨Sect.summary, c, H, D⟩ := by
  obtain ⟨m1, m2, m3, m4, m5⟩ := ne_markers_of_comma hcm
  have hne : t ≠ [] := by intro e; rw [e] at hcm; cases hcm
  simp only [importStepCore]
  rw [if_neg hne, if_neg m1, if_neg m2, if_neg m3, if_neg m4, if_neg m5]

theorem stepCore_ignored_yearly (c : Option ℚ) (H : List ImpHolding) (D : List ImpDividend)
    {t : Str} (hcm : ',' ∈ t) :
    importStepCore ⟨Sect.yearly, c, H, D⟩ t = ⟨Sect.yearly, c, H, D⟩ := by
  obtain ⟨m1, m2, m3, m4, m5⟩ := ne_markers_of_comma hcm
  have hne : t ≠ [] := by intro e; rw [e] at hcm; cases hcm
  simp only [importStepCore]
  rw [if_neg hne, if_neg m1, if_neg m2, if_neg m3, if_neg m4, if_neg m5]

theorem stepCore_header_holdings (c : Option ℚ) (H : List ImpHolding) (D : List ImpDividend) :
    importStepCore ⟨Sect.holdings, c, H, D⟩ holdingsHeader = ⟨Sect.holdings, c, H, D⟩ := by
  simp only [importStepCore]
  rw [if_neg (by decide), if_neg (by decide), if_neg (by decide), if_neg (by decide),
    if_neg (by decide), if_neg (by decide)]
  simp only [show leadsWith hdrID holdingsHeader = true from by decide, if_true]

theorem stepCore_header_dividends (c : Option ℚ) (H : List ImpHolding) (D : List ImpDividend) :
    importStepCore ⟨Sect.dividends, c, H, D⟩ dividendsHeader = ⟨Sect.dividends, c, H, D⟩ := by
  simp only [importStepCore]
  rw [if_neg (by decide), if_neg (by decide), if_neg (by decide), if_neg (by decide),
    if_neg (by decide), if_neg (by decide)]
  simp only [show leadsWith hdrID dividendsHeader = true from by decide, if_true]

theorem stepCore_holding (c : Option ℚ) (H : List ImpHolding) (D : List ImpDividend)
    {h : CalculatedHolding} (hg : GoodHolding h) :
    importStepCore ⟨Sect.holdings, c, H, D⟩ (holdingLine h)
      = ⟨Sect.holdings, c, H ++ [baseOf h], D⟩ := by
  obtain ⟨hid, hhead, hnid, hname, hcode, hq1, hq2, hq3⟩ := hg
  have hcm : ',' ∈ holdingLine h := comma_mem_holdingLine h
  obtain ⟨m1, m2, m3, m4, m5⟩ := ne_markers_of_comma hcm
  have hne : holdingLine h ≠ [] := by intro e; rw [e] at hcm; cases hcm
  have hidc : ',' ∉ h.id := not_mem_of_forall_ne (fun x hx => (fieldOK_props hid x hx).1)
  have hnamec : ',' ∉ h.name := not_mem_of_forall_ne (fun x hx => (fieldOK_props hname x hx).1)
  have hcodec : ',' ∉ h.code := not_mem_of_forall_ne (fun x hx => (fieldOK_props hcode x hx).1)
  have htyc : ',' ∉ typeStr h.type :=
    not_mem_of_forall_ne (fun x hx => (typeStr_chars h.type x hx).1)
  have hqc : ∀ v : ℚ, ',' ∉ qToStr v :=
    fun v => not_mem_of_forall_ne (fun x hx => serial_not_comma (qToStr_serial hx))
  have hlastc : ',' ∉ toFixed2 h.roi ++ ['%'] :=
    not_mem_of_forall_ne (forall_mem_append₂
      (fun x hx => serial_not_comma (toFixed2_serial hx))
      (forall_mem_singleton' (by decide)))
  have hsplit : splitOnComma (holdingLine h)
      = [h.id, h.name, h.code, typeStr h.type, qToStr h.quantity, qToStr h.avgPrice,
         qToStr h.currentPrice, qToStr h.cost, qToStr h.presentValue, qToStr h.profit,
         toFixed2 h.roi ++ ['%']] := by
    unfold holdingLine
    rw [splitOnComma_append _ hidc, splitOnComma_append _ hnamec, splitOnComma_append _ hcodec,
      splitOnComma_append _ htyc, splitOnComma_append _ (hqc _), splitOnComma_append _ (hqc _),
      splitOnComma_append _ (hqc _), splitOnComma_append _ (hqc _), splitOnComma_append _ (hqc _),
      splitOnComma_append _ (hqc _), splitOnComma_single hlastc]
  have hlw : leadsWith hdrID (holdingLine h) = false := by
    unfold holdingLine
    exact leadsWith_idcomma _ hidc hnid
  simp only [importStepCore]
  rw [if_neg hne, if_neg m1, if_neg m2, if_neg m3, if_neg m4, if_neg m5]
  simp only [hlw, Bool.false_eq_true, if_false, hsplit]
  rw [if_pos (by norm_num)]
  simp only [mkImpHolding, baseOf, List.getD_cons_zero, List.getD_cons_succ,
    parseFloat_qToStr hq1, parseFloat_qToStr hq2, parseFloat_qToStr hq3]

theorem idx4Go_cons (c : Char) (rest : Str) (pos cnt : ℕ) :
    idx4Go (c :: rest) pos cnt
      = if c = ',' then
          (if cnt + 1 = 4 then some pos else idx4Go rest (pos + 1) (cnt + 1))
        else idx4Go rest (pos + 1) cnt := rfl

theorem idx4Go_chunk : ∀ (a r : Str), ',' ∉ a → ∀ pos cnt : ℕ,
    idx4Go (a ++ ',' :: r) pos cnt
      = if cnt + 1 = 4 then some (pos + a.length) else idx4Go r (pos + a.length + 1) (cnt + 1) := by
  intro a
  induction a with
  | nil =>
    intro r _ pos cnt
    rw [List.nil_append, idx4Go_cons]
    simp
  | cons c cs ih =>
    intro r ha pos cnt
    have hc : c ≠ ',' := fun e => ha (by rw [← e]; exact List.mem_cons_self c cs)
    have hcs : ',' ∉ cs := fun hm => ha (List.mem_cons_of_mem c hm)
    rw [List.cons_append, idx4Go_cons, if_neg hc, ih r hcs (pos + 1) cnt, List.length_cons,
      show pos + 1 + cs.length = pos + (cs.length + 1) from by omega]

theorem take_len_append (a b : Str) (n : ℕ) : (a ++ b).take (a.length + n) = a ++ b.take n := by
  induction a with
  | nil => simp
  | cons c cs ih =>
    rw [List.cons_append, List.length_cons,
      show cs.length + 1 + n = (cs.length + n) + 1 from by omega,
      List.take_succ_cons, ih, List.cons_append]

theorem drop_len_append (a b : Str) (n : ℕ) : (a ++ b).drop (a.length + n) = b.drop n := by
  induction a with
  | nil => simp
  | cons c cs ih =>
    rw [List.cons_append, List.length_cons,
      show cs.length + 1 + n = (cs.length + n) + 1 from by omega,
      List.drop_succ_cons, ih]

theorem take_chunk (a b : Str) (m : ℕ) :
    (a ++ ',' :: b).take (a.length + (m + 1)) = a ++ ',' :: b.take m := by
  rw [take_len_append, List.take_succ_cons]

theorem drop_chunk (a b : Str) (m : ℕ) :
    (a ++ ',' :: b).drop (a.length + (m + 1)) = b.drop m := by
  rw [drop_len_append, List.drop_succ_cons]

theorem take_len_self (a b : Str) : (a ++ b).take a.length = a := by
  have h := take_len_append a b 0
  simpa using h

theorem idx4_dividendLine (r : DividendRecord) (h1 : ',' ∉ r.id) (h2 : ',' ∉ r.date)
    (h3 : ',' ∉ r.ticker) :
    idx4 (dividendLine r)
      = some (r.id.length + 1 + r.date.length + 1 + r.ticker.length + 1
          + (qToStr r.amount).length) := by
  have h4 : ',' ∉ qToStr r.amount :=
    not_mem_of_forall_ne (fun x hx => serial_not_comma (qToStr_serial hx))
  have n1 : ¬((0 : ℕ) + 1 = 4) := by decide
  have n2 : ¬((0 : ℕ) + 1 + 1 = 4) := by decide
  have n3 : ¬((0 : ℕ) + 1 + 1 + 1 = 4) := by decide
  have y4 : (0 : ℕ) + 1 + 1 + 1 + 1 = 4 := by decide
  unfold idx4 dividendLine
  rw [idx4Go_chunk _ _ h1, if_neg n1, idx4Go_chunk _ _ h2, if_neg n2,
    idx4Go_chunk _ _ h3, if_neg n3, idx4Go_chunk _ _ h4, if_pos y4]
  congr 1
  omega

theorem dividendLine_take (r : DividendRecord) :
    (dividendLine r).take (r.id.length + 1 + r.date.length + 1 + r.ticker.length + 1
        + (qToStr r.amount).length)
      = r.id ++ ',' :: (r.date ++ ',' :: (r.ticker ++ ',' :: qToStr r.amount)) := by
  unfold dividendLine
  rw [show r.id.length + 1 + r.date.length + 1 + r.ticker.length + 1 + (qToStr r.amount).length
      = r.id.length + ((r.date.length + ((r.ticker.length + ((qToStr r.amount).length + 1)) + 1))
        + 1) from by omega]
  rw [take_chunk, take_chunk, take_chunk, take_len_self]

theorem dividendLine_drop (r : DividendRecord) :
    (dividendLine r).drop (r.id.length + 1 + r.date.length + 1 + r.ticker.length + 1
        + (qToStr r.amount).length + 1)
      = '"' :: (escQuotes r.note ++ ['"']) := by
  unfold dividendLine
  rw [show r.id.length + 1 + r.date.length + 1 + r.ticker.length + 1 + (qToStr r.amount).length + 1
      = r.id.length + ((r.date.length + ((r.ticker.length + (((qToStr r.amount).length + (0 + 1))
        + 1)) + 1)) + 1) from by omega]
  rw [drop_chunk, drop_chunk, drop_chunk, drop_chunk, List.drop_zero]

theorem stepCore_dividend (c : Option ℚ) (H : List ImpHolding) (D : List ImpDividend)
    {r : DividendRecord} (hg : GoodDividend r) :
    importStepCore ⟨Sect.dividends, c, H, D⟩ (dividendLine r)
      = ⟨Sect.dividends, c, H, D ++ [impOf r]⟩ := by
  obtain ⟨hid, hhead, hnid, hdate, htick, hamt, hnote⟩ := hg
  have hidc : ',' ∉ r.id := not_mem_of_forall_ne (fun x hx => (fieldOK_props hid x hx).1)
  have hdatec : ',' ∉ r.date := not_mem_of_forall_ne (fun x hx => (fieldOK_props hdate x hx).1)
  have htickc : ',' ∉ r.ticker := not_mem_of_forall_ne (fun x hx => (fieldOK_props htick x hx).1)
  have hamtc : ',' ∉ qToStr r.amount :=
    not_mem_of_forall_ne (fun x hx => serial_not_comma (qToStr_serial hx))
  have hcm : ',' ∈ dividendLine r := comma_mem_append_cons r.id _
  obtain ⟨m1, m2, m3, m4, m5⟩ := ne_markers_of_comma hcm
  have hne : dividendLine r ≠ [] := by intro e; rw [e] at hcm; cases hcm
  have hlw : leadsWith hdrID (dividendLine r) = false := by
    unfold dividendLine
    exact leadsWith_idcomma _ hidc hnid
  have hix := idx4_dividendLine r hidc hdatec htickc
  have ht := dividendLine_take r
  have hd := dividendLine_drop r
  have hsplit : splitOnComma (r.id ++ ',' :: (r.date ++ ',' :: (r.ticker ++ ','
      :: qToStr r.amount))) = [r.id, r.date, r.ticker, qToStr r.amount] := by
    rw [splitOnComma_append _ hidc, splitOnComma_append _ hdatec, splitOnComma_append _ htickc,
      splitOnComma_single hamtc]
  have hlw2 : leadsWith ['"'] ('"' :: (escQuotes r.note ++ ['"'])) = true := rfl
  have hlast2 : ('"' :: (escQuotes r.note ++ ['"'])).getLast? = some '"' := by
    rw [getLast?_cons_ne_nil (by simp),
      List.getLast?_append_of_ne_nil (escQuotes r.note) (by simp)]
    rfl
  have hcond : (leadsWith ['"'] ('"' :: (escQuotes r.note ++ ['"']))
      && (('"' :: (escQuotes r.note ++ ['"'])).getLast? == some '"')) = true := by
    rw [hlw2, hlast2]
    rfl
  have hdrop1 : (('"' :: (escQuotes r.note ++ ['"'])).drop 1).dropLast = escQuotes r.note := by
    rw [List.drop_succ_cons, List.drop_zero, List.dropLast_concat]
  simp only [importStepCore]
  rw [if_neg hne, if_neg m1, if_neg m2, if_neg m3, if_neg m4, if_neg m5]
  simp only [hlw, Bool.false_eq_true, if_false, hix, ht, hd, hsplit, hcond, if_true, hdrop1,
    unesc_esc]
  rw [if_pos (by norm_num)]
  simp only [List.getD_cons_zero, List.getD_cons_succ, parseFloat_qToStr hamt, impOf]

theorem splitLF_single {l : Str} (hn : '\n' ∉ l) : splitLF l = [l] := by
  induction l with
  | nil => rfl
  | cons c cs ih =>
    have hc : c ≠ '\n' := fun e => hn (by rw [← e]; exact List.mem_cons_self c cs)
    have hcs : '\n' ∉ cs := fun hm => hn (List.mem_cons_of_mem c hm)
    rw [splitLF_cons, if_neg hc, ih hcs]

theorem splitLines_single {l : Str} (hn : '\n' ∉ l) : splitLines l = [l] := by
  unfold splitLines
  rw [splitLF_single hn]
  rfl

theorem splitLines_LF (rest : Str) : splitLines ('\n' :: rest) = [] :: splitLines rest := by
  have h := splitLines_line (l := []) rest (by simp) (by simp)
  simpa using h

theorem splitLines_join_only {ls : List Str} (h : ∀ l ∈ ls, '\n' ∉ l ∧ '\r' ∉ l) :
    splitLines (joinLines ls) = ls ++ [[]] := by
  have h2 := @splitLines_join [] ls h
  rw [List.append_nil] at h2
  exact h2

theorem qToStr_not_ws {q : ℚ} : ∀ c ∈ qToStr q, jsWhitespace c = false :=
  fun _ hc => (serialChar_props (qToStr_serial hc)).1

theorem qToStr_trim (q : ℚ) : jsTrim (qToStr q) = qToStr q :=
  jsTrim_eq_self_of_all qToStr_not_ws

theorem qToStr_noLB (q : ℚ) : '\n' ∉ qToStr q ∧ '\r' ∉ qToStr q :=
  ⟨not_mem_of_forall_ne (fun c hc => (serial_noLB (qToStr_serial hc)).1),
   not_mem_of_forall_ne (fun c hc => (serial_noLB (qToStr_serial hc)).2)⟩

theorem qToStr_no_bracket (q : ℚ) : '[' ∉ qToStr q :=
  not_mem_of_forall_ne (fun c hc => (serialChar_props (qToStr_serial hc)).2.2.2.2)

theorem summaryValsLine_trim (s : PortfolioSummary) :
    jsTrim (summaryValsLine s) = summaryValsLine s :=
  jsTrim_eq_self_of_all
    (summaryValsLine_forall (fun _ hc => (serialChar_props hc).1) (by decide))

theorem yearLine_trim (row : ExpYearRow) : jsTrim (yearLine row) = yearLine row :=
  jsTrim_eq_self_of_all
    (yearLine_forall (fun _ hc => (serialChar_props hc).1) (by decide))

theorem step_empty (st : ImpState) : importStep st [] = st := rfl

theorem step_holding (c : Option ℚ) (H : List ImpHolding) (D : List ImpDividend)
    {h : CalculatedHolding} (hg : GoodHolding h) :
    importStep ⟨Sect.holdings, c, H, D⟩ (holdingLine h)
      = ⟨Sect.holdings, c, H ++ [baseOf h], D⟩ := by
  unfold importStep
  rw [holdingLine_trim hg, stepCore_holding c H D hg]

theorem step_dividend (c : Option ℚ) (H : List ImpHolding) (D : List ImpDividend)
    {r : DividendRecord} (hg : GoodDividend r) :
    importStep ⟨Sect.dividends, c, H, D⟩ (dividendLine r)
      = ⟨Sect.dividends, c, H, D ++ [impOf r]⟩ := by
  unfold importStep
  rw [dividendLine_trim hg, stepCore_dividend c H D hg]

theorem step_yearLine (c : Option ℚ) (H : List ImpHolding) (D : List ImpDividend)
    (row : ExpYearRow) :
    importStep ⟨Sect.yearly, c, H, D⟩ (yearLine row) = ⟨Sect.yearly, c, H, D⟩ := by
  unfold importStep
  rw [yearLine_trim, stepCore_ignored_yearly c H D (comma_mem_yearLine row)]

theorem foldl_holdings (c : Option ℚ) (D : List ImpDividend) :
    ∀ (chs : List CalculatedHolding) (H : List ImpHolding), (∀ h ∈ chs, GoodHolding h) →
      (chs.map holdingLine).foldl importStep ⟨Sect.holdings, c, H, D⟩
        = ⟨Sect.holdings, c, H ++ chs.map baseOf, D⟩ := by
  intro chs
  induction chs with
  | nil => intro H _; simp
  | cons h hs ih =>
    intro H hg
    have h1 := hg h (List.mem_cons_self h hs)
    rw [List.map_cons, List.foldl_cons, step_holding c H D h1,
      ih (H ++ [baseOf h]) (fun x hx => hg x (List.mem_cons_of_mem h hx)),
      List.map_cons, List.append_assoc, List.singleton_append]

theorem foldl_dividends (c : Option ℚ) (H : List ImpHolding) :
    ∀ (divs : List DividendRecord) (D : List ImpDividend), (∀ r ∈ divs, GoodDividend r) →
      (divs.map dividendLine).foldl importStep ⟨Sect.dividends, c, H, D⟩
        = ⟨Sect.dividends, c, H, D ++ divs.map impOf⟩ := by
  intro divs
  induction divs with
  | nil => intro D _; simp
  | cons r rs ih =>
    intro D hg
    have h1 := hg r (List.mem_cons_self r rs)
    rw [List.map_cons, List.foldl_cons, step_dividend c H D h1,
      ih (D ++ [impOf r]) (fun x hx => hg x (List.mem_cons_of_mem r hx)),
      List.map_cons, List.append_assoc, List.singleton_append]

theorem foldl_yearly (c : Option ℚ) (H : List ImpHolding) (D : List ImpDividend) :
    ∀ rows : List ExpYearRow,
      (rows.map yearLine).foldl importStep ⟨Sect.yearly, c, H, D⟩ = ⟨Sect.yearly, c, H, D⟩ := by
  intro rows
  induction rows with
  | nil => rfl
  | cons row rs ih =>
    rw [List.map_cons, List.foldl_cons, step_yearLine c H D row, ih]

theorem splitLines_export (chs : List CalculatedHolding) (cash : ℚ)
    (divs : List DividendRecord) (hch : ∀ h ∈ chs, GoodHolding h)
    (hdv : ∀ r ∈ divs, GoodDividend r) :
    splitLines (exportCSV chs cash divs)
      = ('\uFEFF' :: mSUMMARY) :: summaryHeader :: summaryValsLine (summarize chs cash) :: [] ::
        mCASH :: qToStr cash :: [] :: mHOLDINGS :: holdingsHeader ::
        (chs.map holdingLine ++ [] :: mYEARLY :: yearlyHeader ::
          ((exportYearRows divs).map yearLine ++ [] :: mDIVIDENDS :: dividendsHeader ::
            (divs.map dividendLine ++ [[]]))) := by
  have hsv := summaryValsLine_noLB (summarize chs cash)
  have hq := qToStr_noLB cash
  have hH : ∀ l ∈ chs.map holdingLine, '\n' ∉ l ∧ '\r' ∉ l := by
    intro l hl
    obtain ⟨h, hh, rfl⟩ := List.mem_map.mp hl
    exact holdingLine_noLB (hch h hh)
  have hY : ∀ l ∈ (exportYearRows divs).map yearLine, '\n' ∉ l ∧ '\r' ∉ l := by
    intro l hl
    obtain ⟨row, _, rfl⟩ := List.mem_map.mp hl
    exact yearLine_noLB row
  have hD : ∀ l ∈ divs.map dividendLine, '\n' ∉ l ∧ '\r' ∉ l := by
    intro l hl
    obtain ⟨r, hr, rfl⟩ := List.mem_map.mp hl
    exact dividendLine_noLB (hdv r hr)
  have b1n : '\n' ∉ ('\uFEFF' :: mSUMMARY) := by decide
  have b1r : '\r' ∉ ('\uFEFF' :: mSUMMARY) := by decide
  have b2n : '\n' ∉ summaryHeader := by decide
  have b2r : '\r' ∉ summaryHeader := by decide
  have b3n : '\n' ∉ mCASH := by decide
  have b3r : '\r' ∉ mCASH := by decide
  have b4n : '\n' ∉ mHOLDINGS := by decide
  have b4r : '\r' ∉ mHOLDINGS := by decide
  have b5n : '\n' ∉ holdingsHeader := by decide
  have b5r : '\r' ∉ holdingsHeader := by decide
  have b6n : '\n' ∉ mYEARLY := by decide
  have b6r : '\r' ∉ mYEARLY := by decide
  have b7n : '\n' ∉ yearlyHeader := by decide
  have b7r : '\r' ∉ yearlyHeader := by decide
  have b8n : '\n' ∉ mDIVIDENDS := by decide
  have b8r : '\r' ∉ mDIVIDENDS := by decide
  have b9n : '\n' ∉ dividendsHeader := by decide
  have b9r : '\r' ∉ dividendsHeader := by decide
  unfold exportCSV
  rw [← List.cons_append]
  rw [splitLines_line _ b1n b1r, splitLines_line _ b2n b2r,
    splitLines_line _ hsv.1 hsv.2, splitLines_LF, splitLines_line _ b3n b3r,
    splitLines_line _ hq.1 hq.2, splitLines_LF, splitLines_line _ b4n b4r,
    splitLines_line _ b5n b5r, splitLines_join hH, splitLines_LF,
    splitLines_line _ b6n b6r, splitLines_line _ b7n b7r, splitLines_join hY,
    splitLines_LF, splitLines_line _ b8n b8r, splitLines_line _ b9n b9r,
    splitLines_join_only hD]

theorem parseCSV_export (chs : List CalculatedHolding) (cash : ℚ)
    (divs : List DividendRecord) (hch : ∀ h ∈ chs, GoodHolding h)
    (hdv : ∀ r ∈ divs, GoodDividend r) (hc : DecimalQ cash) :
    parseCSV (exportCSV chs cash divs)
      = ⟨Sect.dividends, some cash, chs.map baseOf, divs.map impOf⟩ := by
  have e1 : importStep initState ('\uFEFF' :: mSUMMARY) = ⟨Sect.summary, none, [], []⟩ := by
    decide
  have e2 : importStep ⟨Sect.summary, none, [], []⟩ summaryHeader
      = ⟨Sect.summary, none, [], []⟩ := by decide
  have e3 : importStep ⟨Sect.summary, none, [], []⟩ (summaryValsLine (summarize chs cash))
      = ⟨Sect.summary, none, [], []⟩ := by
    unfold importStep
    rw [summaryValsLine_trim,
      stepCore_ignored_summary none [] [] (comma_mem_summaryValsLine (summarize chs cash))]
  have e5 : importStep ⟨Sect.summary, none, [], []⟩ mCASH = ⟨Sect.cash, none, [], []⟩ := by
    decide
  have e6 : importStep ⟨Sect.cash, none, [], []⟩ (qToStr cash)
      = ⟨Sect.cash, some cash, [], []⟩ := by
    unfold importStep
    rw [qToStr_trim,
      stepCore_cash none [] [] (qToStr_ne_nil cash) (qToStr_no_bracket cash)
        (parseFloat_qToStr hc)]
  have e7 : importStep ⟨Sect.cash, some cash, [], []⟩ mHOLDINGS
      = ⟨Sect.holdings, some cash, [], []⟩ := by
    unfold importStep
    rw [show jsTrim mHOLDINGS = mHOLDINGS from by decide, stepCore_mHOLDINGS]
  have e8 : importStep ⟨Sect.holdings, some cash, [], []⟩ holdingsHeader
      = ⟨Sect.holdings, some cash, [], []⟩ := by
    unfold importStep
    rw [show jsTrim holdingsHeader = holdingsHeader from by decide, stepCore_header_holdings]
  have e9 : importStep ⟨Sect.holdings, some cash, chs.map baseOf, []⟩ mYEARLY
      = ⟨Sect.yearly, some cash, chs.map baseOf, []⟩ := by
    unfold importStep
    rw [show jsTrim mYEARLY = mYEARLY from by decide, stepCore_mYEARLY]
  have e10 : importStep ⟨Sect.yearly, some cash, chs.map baseOf, []⟩ yearlyHeader
      = ⟨Sect.yearly, some cash, chs.map baseOf, []⟩ := by
    unfold importStep
    rw [show jsTrim yearlyHeader = yearlyHeader from by decide,
      stepCore_ignored_yearly (some cash) (chs.map baseOf) []
        (show ',' ∈ yearlyHeader from by decide)]
  have e11 : importStep ⟨Sect.yearly, some cash, chs.map baseOf, []⟩ mDIVIDENDS
      = ⟨Sect.dividends, some cash, chs.map baseOf, []⟩ := by
    unfold importStep
    rw [show jsTrim mDIVIDENDS = mDIVIDENDS from by decide, stepCore_mDIVIDENDS]
  have e12 : importStep ⟨Sect.dividends, some cash, chs.map baseOf, []⟩ dividendsHeader
      = ⟨Sect.dividends, some cash, chs.map baseOf, []⟩ := by
    unfold importStep
    rw [show jsTrim dividendsHeader = dividendsHeader from by decide,
      stepCore_header_dividends]
  unfold parseCSV
  rw [splitLines_export chs cash divs hch hdv]
  rw [List.foldl_cons, e1, List.foldl_cons, e2, List.foldl_cons, e3, List.foldl_cons,
    step_empty, List.foldl_cons, e5, List.foldl_cons, e6, List.foldl_cons, step_empty,
    List.foldl_cons, e7, List.foldl_cons, e8]
  rw [List.foldl_append, foldl_holdings (some cash) [] chs [] hch, List.nil_append]
  rw [List.foldl_cons, step_empty, List.foldl_cons, e9, List.foldl_cons, e10]
  rw [List.foldl_append, foldl_yearly (some cash) (chs.map baseOf) [] (exportYearRows divs)]
  rw [List.foldl_cons, step_empty, List.foldl_cons, e11, List.foldl_cons, e12]
  rw [List.foldl_append, foldl_dividends (some cash) (chs.map baseOf) divs [] hdv,
    List.nil_append]
  rw [List.foldl_cons, step_empty, List.foldl_nil]

theorem withPrev_get_zero {α β : Type} (f : Option α → α → β) (pr : Option α)
    (l : List α) (p : α) (h : l.get? 0 = some p) :
    (withPrev f pr l).get? 0 = some (f pr p) := by
  cases l with
  | nil => simp at h
  | cons x xs =>
    simp only [List.get?_cons_zero, Option.some.injEq] at h
    subst h
    rfl

theorem withPrev_get_succ {α β : Type} (f : Option α → α → β) :
    ∀ (l : List α) (pr : Option α) (i : ℕ) (p q : α),
      l.get? i = some q → l.get? (i + 1) = some p →
      (withPrev f pr l).get? (i + 1) = some (f (some q) p) := by
  intro l
  induction l with
  | nil => intro pr i p q hq _; simp at hq
  | cons x xs ih =>
    intro pr i p q hq hp
    cases i with
    | zero =>
      simp only [List.get?_cons_zero, Option.some.injEq] at hq
      subst hq
      simp only [List.get?_cons_succ] at hp
      show (withPrev f (some x) xs).get? 0 = _
      exact withPrev_get_zero f (some x) xs p hp
    | succ j =>
      simp only [List.get?_cons_succ] at hq hp
      show (withPrev f (some x) xs).get? (j + 1) = _
      exact ih (some x) j p q hq hp

/-- Claim C7 (counterexample): with a previous year whose total is 0 (not
    positive), the Dashboard's yearly table reports growth 0%, not the
    unavailable sentinel. -/
theorem C7_counterexample :
    ((dashYearlyPerformance trendW).get? 0).map (fun r => (r.year, r.hasPrev, displayGrowth r))
      = some (['2', '0', '2', '1'], true, GrowthCell.pct 0)
    ∧ GrowthCell.pct 0 ≠ GrowthCell.dash := by
  constructor
  · norm_num [dashYearlyPerformance, trendW, withPrev, mkDashRow, displayGrowth]
  · intro h
    cases h

/-- Claim C7 (amended): in the CSV export's yearly rows, growth is the
    `(amount − prev)/prev·100` formula when the previous year's total is
    positive and the `'-'` sentinel in every other case (including the first
    year); in the Dashboard's yearly table the sentinel appears only for the
    first available year, and a year whose previous total is not positive is
    reported as growth 0. -/
theorem C7_amended :
    (∀ (pairs : List (ℤ × ℚ)) (p : ℤ × ℚ), pairs.get? 0 = some p →
        (mkExpRows pairs).get? 0
          = some { year := p.1, amount := p.2, growth := none, diff := none })
    ∧ (∀ (pairs : List (ℤ × ℚ)) (i : ℕ) (p q : ℤ × ℚ),
        pairs.get? i = some q → pairs.get? (i + 1) = some p →
        (mkExpRows pairs).get? (i + 1)
          = some { year := p.1, amount := p.2,
                   growth := if 0 < q.2 then some ((p.2 - q.2) / q.2 * 100) else none,
                   diff := some (p.2 - q.2) })
    ∧ (∀ (data : List TrendPoint) (p : TrendPoint), data.get? 0 = some p →
        ((dashYearlyPerformance data).reverse.get? 0).map displayGrowth
          = some GrowthCell.dash)
    ∧ (∀ (data : List TrendPoint) (i : ℕ) (p q : TrendPoint),
        data.get? i = some q → data.get? (i + 1) = some p →
        ((dashYearlyPerformance data).reverse.get? (i + 1)).map displayGrowth
          = some (GrowthCell.pct
              (if 0 < q.amount then (p.amount - q.amount) / q.amount * 100 else 0))) := by
  refine ⟨?_, ?_, ?_, ?_⟩
  · intro pairs p hp
    rw [mkExpRows, withPrev_get_zero mkExpRow none pairs p hp]
    rfl
  · intro pairs i p q hq hp
    rw [mkExpRows, withPrev_get_succ mkExpRow pairs none i p q hq hp]
    rfl
  · intro data p hp
    rw [dashYearlyPerformance, List.reverse_reverse,
      withPrev_get_zero mkDashRow none data p hp]
    rfl
  · intro data i p q hq hp
    rw [dashYearlyPerformance, List.reverse_reverse,
      withPrev_get_succ mkDashRow data none i p q hq hp]
    rfl

/-- Claim C7 witness: concrete instantiation of all four amended properties on
    the 2020/2021 data. -/
theorem C7_witness :
    (mkExpRows yearPairsW).get? 0
      = some { year := 2020, amount := 0, growth := none, diff := none }
    ∧ (mkExpRows yearPairsW).get? 1
      = some { year := 2021, amount := 100,
               growth := if (0 : ℚ) < 0 then some ((100 - 0) / 0 * 100) else none,
               diff := some (100 - 0) }
    ∧ ((dashYearlyPerformance trendW).reverse.get? 0).map displayGrowth
      = some GrowthCell.dash
    ∧ ((dashYearlyPerformance trendW).reverse.get? 1).map displayGrowth
      = some (GrowthCell.pct (if (0 : ℚ) < 0 then (100 - 0) / 0 * 100 else 0)) :=
  ⟨C7_amended.1 yearPairsW (2020, 0) rfl,
   C7_amended.2.1 yearPairsW 0 (2021, 100) (2020, 0) rfl rfl,
   C7_amended.2.2.1 trendW { year := ['2', '0', '2', '0'], amount := 0 } rfl,
   C7_amended.2.2.2 trendW 0 { year := ['2', '0', '2', '1'], amount := 100 }
     { year := ['2', '0', '2', '0'], amount := 0 } rfl rfl⟩

/-- Claim C8 counterexample: a state whose dividend ticker contains a comma
    does not survive the export/import round trip — the extra comma shifts the
    field split, so the rebuilt dividend list differs from the original. -/
theorem C8_counterexample :
    handleImportCSV (exportCSV [] 7 [c8badDiv])
      ≠ some { holdings := [], dividends := [impOf c8badDiv], cash := some 7 } := by
  have hS : summarize [] 7
      = { totalAssets := 7, stockValue := 0, bondValue := 0, cashValue := 7, totalCost := 0,
          totalProfit := 0, totalRoi := 0, stockRatio := 0, bondRatio := 0 } := by
    norm_num [summarize]
  unfold handleImportCSV parseCSV exportCSV
  rw [hS]
  decide

/-- Claim C8 (amended): for every state whose holding text fields and dividend
    id/date/ticker fields are free of commas, CRs and LFs, do not begin with
    trimmable whitespace, are not the literal header id `"id"`, whose numeric
    values have finite decimal expansions, and which is not entirely empty with
    zero cash, exporting to CSV and re-importing yields exactly the raw holding
    fields and exactly the dividend records, every note preserved character for
    character including embedded commas and quotes. -/
theorem C8_amended (chs : List CalculatedHolding) (cash : ℚ) (divs : List DividendRecord)
    (hch : ∀ h ∈ chs, GoodHolding h) (hdv : ∀ r ∈ divs, GoodDividend r)
    (hc : DecimalQ cash) (hne : ¬(chs = [] ∧ cash = 0 ∧ divs = [])) :
    handleImportCSV (exportCSV chs cash divs)
      = some { holdings := chs.map baseOf, dividends := divs.map impOf, cash := some cash } := by
  have hguard : ¬((chs.map baseOf : List ImpHolding) = [] ∧ (cash == (0 : ℚ)) = true
      ∧ (divs.map impOf : List ImpDividend) = []) := by
    intro hcon
    exact hne ⟨List.map_eq_nil.mp hcon.1, by simpa using hcon.2.1,
      List.map_eq_nil.mp hcon.2.2⟩
  simp only [handleImportCSV, parseCSV_export chs cash divs hch hdv hc, jsFalsyCash]
  rw [if_neg hguard]

/-- Claim C8 witness: the amended round trip at a concrete one-holding,
    one-dividend state with cash 7, the note holding a comma and a quote. -/
theorem C8_witness :
    (∀ h ∈ [c8wHolding], GoodHolding h) ∧ (∀ r ∈ [c8wDiv], GoodDividend r)
    ∧ DecimalQ (7 : ℚ)
    ∧ ¬(([c8wHolding] : List CalculatedHolding) = [] ∧ (7 : ℚ) = 0
        ∧ ([c8wDiv] : List DividendRecord) = [])
    ∧ handleImportCSV (exportCSV [c8wHolding] 7 [c8wDiv])
      = some { holdings := [baseOf c8wHolding], dividends := [impOf c8wDiv],
               cash := some 7 } :=
  ⟨by decide, by decide, by decide, by decide,
   C8_amended [c8wHolding] 7 [c8wDiv] (by decide) (by decide) (by decide) (by decide)⟩

/-- Claim C9 counterexample: a `[HOLDINGS]` row whose quantity column is the
    non-numeric text `abc` is not rejected — the import succeeds, stores the
    holding with a missing (NaN) quantity, and mutates the state. -/
theorem C9_counterexample :
    handleImportCSV c9text
      = some { holdings := [c9expHolding], dividends := [], cash := none }
    ∧ applyImport c9state c9text true ≠ c9state := by
  constructor
  · decide
  · decide

/-- Claim C9 (amended): every import is atomic — either the state is left
    completely unchanged (parse failure or unconfirmed dialog), or parsing
    succeeded, the user confirmed, and holdings, dividends and cash are all
    replaced together in one step. Malformed numeric cells are not rejected:
    they import as NaN fields (see the counterexample). -/
theorem C9_amended (s : AppState) (text : Str) (conf : Bool) :
    applyImport s text conf = s
    ∨ ∃ r, handleImportCSV text = some r ∧ conf = true
        ∧ applyImport s text conf
          = { holdings := r.holdings, dividendRecords := r.dividends,
              cash := match r.cash with | some v => v | none => s.cash } := by
  rcases h : handleImportCSV text with _ | r
  · left
    unfold applyImport
    rw [h]
  · cases conf with
    | false =>
      left
      unfold applyImport
      rw [h]
      rfl
    | true =>
      right
      refine ⟨r, rfl, rfl, ?_⟩
      unfold applyImport
      rw [h]
      rfl

/-- Claim C10: a file that parses to no holdings, no dividends and a cash value
    of exactly 0 is rejected by the truthiness guard, while the same `[CASH]`
    file with any nonzero finite-decimal cash value imports and sets that
    value. -/
theorem C10_cash_truthiness :
    (∀ text : Str, (parseCSV text).tempHoldings = [] → (parseCSV text).tempDividends = []
        → (parseCSV text).tempCash = some 0 → handleImportCSV text = none)
    ∧ ∀ c : ℚ, DecimalQ c →
        handleImportCSV (mCASH ++ '\n' :: qToStr c)
          = if c = 0 then none
            else some { holdings := [], dividends := [], cash := some c } := by
  constructor
  · intro text h1 h2 h3
    simp only [handleImportCSV]
    rw [if_pos ⟨h1, by rw [h3]; decide, h2⟩]
  · intro c hc
    have hmn : '\n' ∉ mCASH := by decide
    have hmr : '\r' ∉ mCASH := by decide
    have hl : splitLines (mCASH ++ '\n' :: qToStr c) = [mCASH, qToStr c] := by
      rw [splitLines_line _ hmn hmr, splitLines_single (qToStr_noLB c).1]
    have ec1 : importStep initState mCASH = ⟨Sect.cash, none, [], []⟩ := by decide
    have ec2 : importStep ⟨Sect.cash, none, [], []⟩ (qToStr c)
        = ⟨Sect.cash, some c, [], []⟩ := by
      unfold importStep
      rw [qToStr_trim,
        stepCore_cash none [] [] (qToStr_ne_nil c) (qToStr_no_bracket c)
          (parseFloat_qToStr hc)]
    have hp : parseCSV (mCASH ++ '\n' :: qToStr c) = ⟨Sect.cash, some c, [], []⟩ := by
      unfold parseCSV
      rw [hl, List.foldl_cons, ec1, List.foldl_cons, ec2, List.foldl_nil]
    simp only [handleImportCSV, hp, jsFalsyCash]
    by_cases h0 : c = 0
    · rw [if_pos ⟨trivial, by rw [h0]; decide, trivial⟩, if_pos h0]
    · rw [if_neg (fun hcon => h0 (by simpa using hcon.2.1)), if_neg h0]

/-- Claim C10 witness: the zero-cash file `[CASH]\n0` is rejected, and the same
    file with cash 5 imports with cash set to 5. -/
theorem C10_witness :
    ((parseCSV (mCASH ++ '\n' :: qToStr (0 : ℚ))).tempHoldings = []
      ∧ (parseCSV (mCASH ++ '\n' :: qToStr (0 : ℚ))).tempDividends = []
      ∧ (parseCSV (mCASH ++ '\n' :: qToStr (0 : ℚ))).tempCash = some 0
      ∧ handleImportCSV (mCASH ++ '\n' :: qToStr (0 : ℚ)) = none)
    ∧ (DecimalQ (5 : ℚ)
      ∧ handleImportCSV (mCASH ++ '\n' :: qToStr (5 : ℚ))
        = if (5 : ℚ) = 0 then none
          else some { holdings := [], dividends := [], cash := some (5 : ℚ) }) :=
  ⟨⟨by decide, by decide, by decide,
    C10_cash_truthiness.1 _ (by decide) (by decide) (by decide)⟩,
   ⟨by decide, C10_cash_truthiness.2 5 (by decide)⟩⟩

end Portfolio

